import Mathlib

/-!
Verification of the taxonomy-shaping core of `wildcards-gen` against its
natural-language specification.

The Python source is shallowly embedded: pure functions become Lean
functions over `List`/`String`/`ℚ`; module-global mutable caches become
explicit state threaded through the functions; calls into external
libraries (sentence-transformers, hdbscan, umap, sklearn, NLTK WordNet)
become parameters of small environment structures, since their behaviour
is data the program consumes, not code of this repository.

Python-semantics conventions used throughout:
* `sorted(xs)` is a stable sort; we embed it as `List.insertionSort`
  (stable, and equal to any stable sort for a total preorder).
* `str.lower` / `str.title` / `str.strip` are embedded for their ASCII
  behaviour, which is all the repository's data exercises.
* dict values keep Python insertion-order semantics: assignment to an
  existing key replaces in place, assignment to a fresh key appends.
-/

set_option maxRecDepth 100000

namespace WildcardsGen

/-! ### Python string primitives -/

/-- ASCII lower-casing of one character, Python `str.lower` behaviour. -/
def pyLowerChar (c : Char) : Char :=
  if 'A' ≤ c ∧ c ≤ 'Z' then Char.ofNat (c.toNat + 32) else c

/-- ASCII upper-casing of one character, Python `str.upper` behaviour. -/
def pyUpperChar (c : Char) : Char :=
  if 'a' ≤ c ∧ c ≤ 'z' then Char.ofNat (c.toNat - 32) else c

/-- ASCII letter test (Python's `str.title` casing classes). -/
def pyIsAlpha (c : Char) : Bool :=
  ('A' ≤ c ∧ c ≤ 'Z') ∨ ('a' ≤ c ∧ c ≤ 'z')

/-- Python `str.lower()` (ASCII range). -/
def pyLower (s : String) : String := String.mk (s.data.map pyLowerChar)

/-- Python `str.casefold()`; coincides with `lower` on ASCII data. -/
def pyCasefold (s : String) : String := pyLower s

/-- Whitespace removal at the front of a character list. -/
def dropWhileWs : List Char → List Char
  | [] => []
  | c :: rest => if c.isWhitespace then dropWhileWs rest else c :: rest

/-- Python `str.strip()` (whitespace trim at both ends). -/
def pyStrip (s : String) : String :=
  String.mk ((dropWhileWs (dropWhileWs s.data).reverse).reverse)

/-- Python `str.startswith`. -/
def pyStartsWith (s pre : String) : Bool := pre.data.isPrefixOf s.data

/-- One step of Python `str.title()`: uppercase an alphabetic character
that follows a non-alphabetic one, lowercase the rest. `prevAlpha` says
whether the previous character was alphabetic. -/
def pyTitleChars : Bool → List Char → List Char
  | _, [] => []
  | prevAlpha, c :: rest =>
    let c' := if pyIsAlpha c then (if prevAlpha then pyLowerChar c else pyUpperChar c) else c
    c' :: pyTitleChars (pyIsAlpha c) rest

/-- Python `str.title()`. -/
def pyTitle (s : String) : String := String.mk (pyTitleChars false s.data)

/-- Code-point-lexicographic comparison of character lists (Python's
string order). -/
def charListLe : List Char → List Char → Bool
  | [], _ => true
  | _ :: _, [] => false
  | a :: as, b :: bs =>
    if a.toNat < b.toNat then true
    else if b.toNat < a.toNat then false
    else charListLe as bs

/-- Python `a <= b` on strings. -/
def strLe (a b : String) : Bool := charListLe a.data b.data

/-- Insert into a sorted list, keeping earlier elements first on ties
(the stability Python's sort guarantees). -/
def orderedInsertB (le : String → String → Bool) (a : String) :
    List String → List String
  | [] => [a]
  | b :: l => if le a b then a :: b :: l else b :: orderedInsertB le a l

/-- Stable insertion sort; Python's `sorted` is a stable sort, and every
stable sort under a total preorder computes the same list. -/
def insertionSortB (le : String → String → Bool) : List String → List String
  | [] => []
  | a :: l => orderedInsertB le a (insertionSortB le l)

/-- Python `sorted` on strings. -/
def pySort (l : List String) : List String := insertionSortB strLe l

/-- Python `sorted(..., key=str.casefold)`: stable sort comparing
casefolded keys. -/
def pySortCasefold (l : List String) : List String :=
  insertionSortB (fun a b => strLe (pyCasefold a) (pyCasefold b)) l

/-- First-occurrence deduplication: keeps the first copy of each string. -/
def pyDedup (l : List String) : List String :=
  go [] l
where
  go (seen : List String) : List String → List String
    | [] => []
    | x :: rest => if x ∈ seen then go seen rest else x :: go (x :: seen) rest

/-- Python `sorted(set(xs))`: the sorted list of distinct elements. -/
def pySortedSet (l : List String) : List String := pySort (pyDedup l)

/-- Python `sorted(set(xs), key=str.casefold)`. CPython set order is
hash-based; we fix first-occurrence order, which only matters between
strings with equal casefolded keys (no claim depends on such ties). -/
def pySortedSetCasefold (l : List String) : List String := pySortCasefold (pyDedup l)

/-! ### MD5 (RFC 1321), used by the embedding cache for its keys -/

def w32 (n : Nat) : Nat := n % 4294967296

def add32 (a b : Nat) : Nat := w32 (a + b)

def not32 (a : Nat) : Nat := 4294967295 - w32 a

def rotl32 (x s : Nat) : Nat := w32 ((x <<< s) + (w32 x >>> (32 - s)))

/-- The 64 MD5 sine-derived constants. -/
def md5K : List Nat :=
  [0xd76aa478, 0xe8c7b756, 0x242070db, 0xc1bdceee, 0xf57c0faf, 0x4787c62a,
   0xa8304613, 0xfd469501, 0x698098d8, 0x8b44f7af, 0xffff5bb1, 0x895cd7be,
   0x6b901122, 0xfd987193, 0xa679438e, 0x49b40821, 0xf61e2562, 0xc040b340,
   0x265e5a51, 0xe9b6c7aa, 0xd62f105d, 0x02441453, 0xd8a1e681, 0xe7d3fbc8,
   0x21e1cde6, 0xc33707d6, 0xf4d50d87, 0x455a14ed, 0xa9e3e905, 0xfcefa3f8,
   0x676f02d9, 0x8d2a4c8a, 0xfffa3942, 0x8771f681, 0x6d9d6122, 0xfde5380c,
   0xa4beea44, 0x4bdecfa9, 0xf6bb4b60, 0xbebfbc70, 0x289b7ec6, 0xeaa127fa,
   0xd4ef3085, 0x04881d05, 0xd9d4d039, 0xe6db99e5, 0x1fa27cf8, 0xc4ac5665,
   0xf4292244, 0x432aff97, 0xab9423a7, 0xfc93a039, 0x655b59c3, 0x8f0ccc92,
   0xffeff47d, 0x85845dd1, 0x6fa87e4f, 0xfe2ce6e0, 0xa3014314, 0x4e0811a1,
   0xf7537e82, 0xbd3af235, 0x2ad7d2bb, 0xeb86d391]

/-- The 64 MD5 per-round left-rotation amounts. -/
def md5S : List Nat :=
  [7, 12, 17, 22, 7, 12, 17, 22, 7, 12, 17, 22, 7, 12, 17, 22,
   5, 9, 14, 20, 5, 9, 14, 20, 5, 9, 14, 20, 5, 9, 14, 20,
   4, 11, 16, 23, 4, 11, 16, 23, 4, 11, 16, 23, 4, 11, 16, 23,
   6, 10, 15, 21, 6, 10, 15, 21, 6, 10, 15, 21, 6, 10, 15, 21]

/-- UTF-8 encoding of one character, as in Python's `str.encode`. -/
def utf8Encode (c : Char) : List Nat :=
  let n := c.toNat
  if n < 0x80 then [n]
  else if n < 0x800 then
    [0xC0 + (n >>> 6), 0x80 + (n % 64)]
  else if n < 0x10000 then
    [0xE0 + (n >>> 12), 0x80 + ((n >>> 6) % 64), 0x80 + (n % 64)]
  else
    [0xF0 + (n >>> 18), 0x80 + ((n >>> 12) % 64), 0x80 + ((n >>> 6) % 64), 0x80 + (n % 64)]

/-- UTF-8 bytes of a string. -/
def strBytes (s : String) : List Nat :=
  s.data.foldr (fun c acc => utf8Encode c ++ acc) []

/-- Little-endian 32-bit words from a byte list. -/
def leWords : List Nat → List Nat
  | b0 :: b1 :: b2 :: b3 :: rest =>
    (b0 + 256 * b1 + 65536 * b2 + 16777216 * b3) :: leWords rest
  | _ => []

/-- Little-endian byte expansion, `k` bytes of `n`. -/
def leBytes : Nat → Nat → List Nat
  | 0, _ => []
  | k + 1, n => (n % 256) :: leBytes k (n / 256)

/-- MD5 padding: 0x80, zeros to 56 mod 64, then the 64-bit bit length. -/
def md5Pad (msg : List Nat) : List Nat :=
  let zeros := (119 - (msg.length % 64)) % 64
  msg ++ 0x80 :: (List.replicate zeros 0 ++ leBytes 8 ((8 * msg.length) % 18446744073709551616))

/-- One MD5 round operation on the state `(a, b, c, d)`. -/
def md5Round (M : List Nat) (i : Nat) : Nat × Nat × Nat × Nat → Nat × Nat × Nat × Nat
  | (a, b, c, d) =>
    let fg : Nat × Nat :=
      if i < 16 then (Nat.lor (Nat.land b c) (Nat.land (not32 b) d), i)
      else if i < 32 then (Nat.lor (Nat.land d b) (Nat.land (not32 d) c), (5 * i + 1) % 16)
      else if i < 48 then (Nat.xor (Nat.xor b c) d, (3 * i + 5) % 16)
      else (Nat.xor c (Nat.lor b (not32 d)), (7 * i) % 16)
    let f := w32 (fg.1 + a + md5K.getD i 0 + M.getD fg.2 0)
    (d, add32 b (rotl32 f (md5S.getD i 0)), b, c)

/-- Process one 64-byte block. -/
def md5Block (st : Nat × Nat × Nat × Nat) (block : List Nat) : Nat × Nat × Nat × Nat :=
  let M := leWords block
  let r := (List.range 64).foldl (fun s i => md5Round M i s) st
  (add32 st.1 r.1, add32 st.2.1 r.2.1, add32 st.2.2.1 r.2.2.1, add32 st.2.2.2 r.2.2.2)

/-- Split a byte list into 64-byte blocks (fuel-structured so that the
definition reduces; `fuel = l.length` always suffices since each step
consumes 64 bytes). -/
def md5BlocksF : Nat → List Nat → List (List Nat)
  | 0, _ => []
  | _ + 1, [] => []
  | fuel + 1, l => l.take 64 :: md5BlocksF fuel (l.drop 64)

/-- Split a byte list into 64-byte blocks. -/
def md5Blocks (l : List Nat) : List (List Nat) := md5BlocksF l.length l

/-- MD5 digest bytes of a message. -/
def md5Bytes (msg : List Nat) : List Nat :=
  let st := (md5Blocks (md5Pad msg)).foldl md5Block
    (0x67452301, 0xefcdab89, 0x98badcfe, 0x10325476)
  leBytes 4 st.1 ++ leBytes 4 st.2.1 ++ leBytes 4 st.2.2.1 ++ leBytes 4 st.2.2.2

def hexDigit (n : Nat) : Char :=
  if n < 10 then Char.ofNat (48 + n) else Char.ofNat (87 + n)

/-- Lowercase hex string of a byte list, as `hashlib`'s `hexdigest`. -/
def bytesHex (l : List Nat) : String :=
  String.mk (l.foldr (fun b acc => hexDigit (b / 16) :: hexDigit (b % 16) :: acc) [])

/-- Python `hashlib.md5(s.encode("utf-8")).hexdigest()`. -/
def md5Hex (s : String) : String := bytesHex (md5Bytes (strBytes s))

/-! ### Embedding cache key (`get_cached_embeddings`, core/arranger.py) -/

/-- The cache key computed by `get_cached_embeddings`:
`hashlib.md5("|".join(sorted(terms)).encode("utf-8")).hexdigest()`.
Note the source joins `sorted(terms)` without deduplication. -/
def get_cached_embeddings_key (terms : List String) : String :=
  md5Hex (String.intercalate ("|") (pySort terms))

/-- The key described by the spec sentence behind C1: the digest of the
`|`-joined sorted *unique* term list (comparison target, from the spec's
words, not from the source). -/
def spec_cache_key (terms : List String) : String :=
  md5Hex (String.intercalate ("|") (pySortedSet terms))

/-! ### Traversal budget (`core/smart.py`, class `TraversalBudget`) -/

structure TraversalBudget where
  limit : Option Nat
  current : Nat
  exhausted : Bool
deriving DecidableEq

/-- Constructor `TraversalBudget.__init__`. -/
def TraversalBudget.init (limit : Option Nat) : TraversalBudget :=
  ⟨limit, 0, false⟩

/-- Method `TraversalBudget.consume`: Python mutates the object and returns a
success flag; we return the flag together with the updated budget. -/
def TraversalBudget.consume (b : TraversalBudget) (amount : Nat) : Bool × TraversalBudget :=
  match b.limit with
  | none => (true, b)
  | some limit =>
    if b.exhausted then (false, b)
    else
      let current := b.current + amount
      if current > limit then
        (false, { b with current := current, exhausted := true })
      else if current = limit then
        (true, { b with current := current, exhausted := true })
      else
        (true, { b with current := current })

/-- Method `TraversalBudget.is_exhausted`. -/
def TraversalBudget.isExhausted (b : TraversalBudget) : Bool :=
  match b.limit with
  | none => false
  | some _ => b.exhausted

/-- A run of `n` node visits, each calling `budget.consume(1)` as
`build_commented` does; returns the final budget and the per-visit
success flags in order. -/
def runVisits : TraversalBudget → Nat → TraversalBudget × List Bool
  | b, 0 => (b, [])
  | b, n + 1 =>
    let r := b.consume 1
    let rest := runVisits r.2 n
    (rest.1, r.1 :: rest.2)

/-! ### Budget gate of the traversal (`datasets/tencent.py`,
`build_commented` lines 210-214). The prologue of every node visit:

    if budget and not budget.consume(1):
        if budget.is_exhausted() and stats:
            stats.log_event("limit_reached", ...)
        return None, []

We model the run with a budget and a stats collector present; the event
log is the list of recorded event kinds. The returned `Bool` is whether
the visit proceeds (`false` means the sentinel `(None, [])` abort). -/

def visitGate (b : TraversalBudget) (events : List String) :
    TraversalBudget × List String × Bool :=
  let r := b.consume 1
  if r.1 then (r.2, events, true)
  else if r.2.isExhausted then (r.2, events ++ ["limit_reached"], false)
  else (r.2, events, false)

/-- Run of `n` attempted node visits through the budget gate. -/
def runGate : TraversalBudget → List String → Nat → TraversalBudget × List String
  | b, events, 0 => (b, events)
  | b, events, n + 1 =>
    let g := visitGate b events
    runGate g.1 g.2.1 n

/-- Number of "limit_reached" events in an event log. -/
def limitEvents (events : List String) : Nat := events.count ("limit_reached")

/-! ### Structure nodes

The nested dict/list trees the Shaper operates on. Python dicts are
insertion-ordered association lists; original dicts have unique keys, and
every assignment is modelled with Python semantics (replace in place, or
append when the key is fresh), so the embeddings below remain faithful on
any input the program can build. Side-channel comment plumbing
(`CommentedMap.ca`) is annotation bookkeeping orthogonal to the structure
and is omitted. -/

inductive PyNode where
  | list (items : List String)
  | dict (entries : List (String × PyNode))

/-- Python dict lookup `d.get(k)` / `k in d`. -/
def assocLookup (es : List (String × PyNode)) (k : String) : Option PyNode :=
  match es with
  | [] => none
  | (k', v) :: rest => if k' = k then some v else assocLookup rest k

/-- Python dict assignment `d[k] = v`: replaces in place when the key
exists, appends otherwise. -/
def assocSet (es : List (String × PyNode)) (k : String) (v : PyNode) :
    List (String × PyNode) :=
  match es with
  | [] => [(k, v)]
  | (k', v') :: rest => if k' = k then (k', v) :: rest else (k', v') :: assocSet rest k v

/-- Python dict `d.pop(k)` (the removal part; the key is present in every
use below). -/
def assocPop (es : List (String × PyNode)) (k : String) : List (String × PyNode) :=
  match es with
  | [] => []
  | (k', v) :: rest => if k' = k then rest else (k', v) :: assocPop rest k

mutual
/-- Python `==` on structure nodes: lists compare element-wise in order,
dicts compare as key-value maps ignoring insertion order. -/
def pyEqNode : PyNode → PyNode → Bool
  | .list a, .list b => a == b
  | .dict a, .dict b => a.length == b.length && pyEqEntries a b
  | _, _ => false

def pyEqEntries : List (String × PyNode) → List (String × PyNode) → Bool
  | [], _ => true
  | (k, v) :: rest, b =>
    (match assocLookup b k with
     | some w => pyEqNode v w
     | none => false) && pyEqEntries rest b
end

/-- Proposition that the leaf list `l` occurs somewhere in a structure. -/
inductive ListIn : List String → PyNode → Prop where
  | here (l : List String) : ListIn l (.list l)
  | there (l : List String) (k : String) (v : PyNode) (es : List (String × PyNode)) :
      ListIn l v → (k, v) ∈ es → ListIn l (.dict es)

/-! ### TF-IDF keyword extraction (`core/arranger.py`,
`extract_unique_keywords` and `generate_contextual_label`)

The sklearn vectorizer is an external library: the environment's `rank`
returns the feature words with their scores for the corpus
`[cluster_doc, context_doc]`, already ordered by descending score as the
source's `argsort()[::-1]` produces them; `none` models an exception
inside sklearn (caught by the source, which then returns `[]`). -/

structure TfidfEnv where
  rank : String → String → Option (List (String × ℚ))

/-- Fuel-structured non-overlapping substring count. -/
def countSubstrF (pat : List Char) : Nat → List Char → Nat
  | 0, _ => 0
  | _ + 1, [] => 0
  | fuel + 1, c :: rest =>
    if pat.isPrefixOf (c :: rest) then 1 + countSubstrF pat fuel ((c :: rest).drop pat.length)
    else countSubstrF pat fuel rest

/-- Python `s.count(pat)`: non-overlapping occurrence count. -/
def countSubstr (s pat : String) : Nat :=
  if pat.data = [] then s.data.length + 1 else countSubstrF pat.data s.data.length s.data

/-- Keyword-selection loop of `extract_unique_keywords`: walk the ranked
features, keep a word when `score > 0.2` and it occurs at least twice in
the cluster document (or `score > 0.5`), stop once `top_n` are kept. -/
def selectKeywords (cluster_doc : String) : Nat → List (String × ℚ) → List String
  | _, [] => []
  | top_n, (word, score) :: rest =>
    let cnt := countSubstr (pyLower cluster_doc) (pyLower word)
    if 1/5 < score ∧ (2 ≤ cnt ∨ 1/2 < score) then
      if top_n ≤ 1 then [word] else word :: selectKeywords cluster_doc (top_n - 1) rest
    else selectKeywords cluster_doc top_n rest

/-- Function `extract_unique_keywords(cluster_terms, all_terms, top_n)`. -/
def extract_unique_keywords (env : TfidfEnv) (cluster_terms all_terms : List String)
    (top_n : Nat) : List String :=
  if cluster_terms = [] ∨ all_terms = [] then []
  else
    let cluster_doc := String.intercalate (" ") cluster_terms
    let context_doc := String.intercalate (" ") (all_terms.filter (fun t => t ∉ cluster_terms))
    if context_doc = "" then []
    else
      match env.rank cluster_doc context_doc with
      | none => []
      | some ranked => selectKeywords cluster_doc top_n ranked

/-- Function `generate_contextual_label(terms, context_terms, fallback)`. -/
def generate_contextual_label (env : TfidfEnv) (terms context_terms : List String)
    (fallback : String) : String :=
  if terms = [] then fallback
  else
    match extract_unique_keywords env terms context_terms 1 with
    | [] => fallback
    | kw :: _ => fallback ++ " (" ++ pyTitle kw ++ ")"

/-! ### Shaper (`core/shaper.py`, class `ConstraintShaper`) -/

/-- Environment of the Shaper: the TF-IDF ranking data and whether the
lazy `from .arranger import generate_contextual_label` succeeds (its
failure is caught and the generic label is kept). -/
structure ShaperEnv where
  tfidf : TfidfEnv
  importOk : Bool

/-- Test for keys `_merge_orphans` treats as existing generic bins:
`k.lower() in ["other", "misc"] or k.startswith("Other (") or
k.startswith("misc (")`. -/
def isGenericBinKey (k : String) : Bool :=
  pyLower k = "other" || pyLower k = "misc" ||
  pyStartsWith k ("Other (") || pyStartsWith k ("misc (")

/-- Entry is a list-valued sibling that `_merge_orphans` pools: shorter
than `min_size`, or keyed like an existing generic bin. -/
def isSmallEntry (minSize : Nat) (kv : String × PyNode) : Bool :=
  match kv.2 with
  | .list v => decide (v.length < minSize) || isGenericBinKey kv.1
  | _ => false

/-- Items of a list-valued entry, else nothing. -/
def entryItems (kv : String × PyNode) : List String :=
  match kv.2 with
  | .list v => v
  | _ => []

/-- Level processing of `_merge_orphans` after the recursion: pool the
small list siblings, choose the destination label (contextual when the
template is generic), and move the pooled items there. -/
def mergeOrphansLevel (env : ShaperEnv) (minSize : Nat) (tmpl : Option String)
    (processed : List (String × PyNode)) : PyNode :=
  let smalls := processed.filter (isSmallEntry minSize)
  let smallKeys := smalls.map Prod.fst
  let orphanItems := (smalls.map entryItems).flatten
  let contextItems :=
    ((processed.filter fun kv =>
        match kv.2 with
        | .list _ => !isSmallEntry minSize kv
        | _ => false).map entryItems).flatten
  if smallKeys = [] then .dict processed
  else
    let base := tmpl.getD ("Other")
    let isGeneric := pyLower base = "other" || pyLower base = "misc"
    let otherLabel :=
      if isGeneric && env.importOk then
        generate_contextual_label env.tfidf orphanItems contextItems base
      else base
    let processed1 :=
      if (assocLookup processed otherLabel).isNone then processed ++ [(otherLabel, .list [])]
      else processed
    let smallKeys1 := smallKeys.erase otherLabel
    match assocLookup processed1 otherLabel with
    | some (.list cur) =>
      let gathered := (smallKeys1.map fun k =>
          match assocLookup processed1 k with
          | some (.list items) => items
          | _ => []).flatten
      let afterPop := smallKeys1.foldl (fun acc k => assocPop acc k) processed1
      .dict (assocSet afterPop otherLabel (.list (pySortedSetCasefold (cur ++ gathered))))
    | _ => .dict processed1

mutual
/-- Method `_merge_orphans`: sort bare lists, recurse into dict values,
then pool small list siblings at the current level. -/
def mergeOrphans (env : ShaperEnv) (minSize : Nat) (tmpl : Option String) :
    PyNode → PyNode
  | .list l => .list (pySort l)
  | .dict es => mergeOrphansLevel env minSize tmpl (mergeOrphansEntries env minSize tmpl es)

def mergeOrphansEntries (env : ShaperEnv) (minSize : Nat) (tmpl : Option String) :
    List (String × PyNode) → List (String × PyNode)
  | [] => []
  | (k, v) :: rest => (k, mergeOrphans env minSize tmpl v) :: mergeOrphansEntries env minSize tmpl rest
end

mutual
/-- Method `_prune_tautologies`: recurse first, then for a dict-valued
entry whose recursed value contains a child key equal to the entry key
after lower-case strip, either promote the child (only child) or rename
it to `"General {k}"` via pop-then-assign. -/
def pruneTautologies : PyNode → PyNode
  | .list l => .list l
  | .dict es => .dict (pruneTautologiesEntries es)

def pruneTautologiesEntries : List (String × PyNode) → List (String × PyNode)
  | [] => []
  | (k, v) :: rest =>
    let v' := pruneTautologies v
    (match v' with
     | .dict ves =>
       match ves.find? (fun ckv => pyStrip (pyLower ckv.1) == pyStrip (pyLower k)) with
       | some (ck, cv) =>
         if ves.length = 1 then (k, cv)
         else (k, .dict (assocSet (assocPop ves ck) ("General " ++ k) cv))
       | none => (k, v')
     | _ => (k, v')) :: pruneTautologiesEntries rest
end

mutual
/-- Method `_flatten_singles`: recurse; a single-entry dict is kept at a
root, kept when its value is a dict or a non-generic list wrapper, and
promoted when the key is a generic container holding a list. -/
def flattenSingles (isRoot : Bool) : PyNode → PyNode
  | .list l => .list l
  | .dict es =>
    let newEs := flattenSinglesEntries es
    match newEs with
    | [(key, val)] =>
      if isRoot then .dict newEs
      else
        match val with
        | .list l =>
          if key = "misc" ∨ key = "Other" ∨ key = "misc (Category 1)" then
            (if pyLower key = "misc" ∨ pyLower key = "other" then .list l else .dict newEs)
          else .dict newEs
        | .dict _ => .dict newEs
    | _ => .dict newEs

def flattenSinglesEntries : List (String × PyNode) → List (String × PyNode)
  | [] => []
  | (k, v) :: rest => (k, flattenSingles false v) :: flattenSinglesEntries rest
end

/-- Python `for k, v in b.items(): a[k] = v`, i.e. `a.update(b)`. -/
def dictUpdate (a b : List (String × PyNode)) : List (String × PyNode) :=
  b.foldl (fun acc kv => assocSet acc kv.1 kv.2) a

mutual
/-- Method `_normalize_casing`: leaf lists become
`sorted(set(lowered))`; keys are title-cased, merging collisions
(list + list via sorted dedup, dict + dict via update, mixed types keep
the last value). -/
def normalizeCasing : PyNode → PyNode
  | .list l => .list (pySortedSet (l.map pyLower))
  | .dict es => .dict (normalizeCasingEntries [] es)

def normalizeCasingEntries (acc : List (String × PyNode)) :
    List (String × PyNode) → List (String × PyNode)
  | [] => acc
  | (k, v) :: rest =>
    let titleK := pyTitle k
    let normV := normalizeCasing v
    let acc' :=
      match assocLookup acc titleK with
      | some existing =>
        match existing, normV with
        | .list a, .list b => assocSet acc titleK (.list (pySortedSet (a ++ b)))
        | .dict a, .dict b => assocSet acc titleK (.dict (dictUpdate a b))
        | _, _ => assocSet acc titleK normV
      | none => acc ++ [(titleK, normV)]
    normalizeCasingEntries acc' rest
end

/-- Method `ConstraintShaper.shape`: orphan merge, tautology prune,
optional single flattening (with root preservation), casing
normalization. -/
def shape (env : ShaperEnv) (tree : PyNode) (min_leaf_size : Nat)
    (flatten_singles : Bool) (preserve_roots : Bool) (tmpl : Option String) : PyNode :=
  let p1 := mergeOrphans env min_leaf_size tmpl tree
  let p2 := pruneTautologies p1
  let p3 :=
    if flatten_singles then
      match p2 with
      | .dict [(k, v)] =>
        if preserve_roots then .dict [(k, flattenSingles false v)]
        else flattenSingles true (.dict [(k, v)])
      | _ => flattenSingles true p2
    else p2
  normalizeCasing p3

/-! ### WordNet resolver (`core/wordnet.py`), as an environment

The NLTK WordNet database is read-only external data. Synsets are
identifiers into the environment's tables; the wrapper functions of
`wordnet.py` are embedded over those tables. -/

structure WnEnv where
  /-- Function `get_primary_synset(word)` (already includes the
  space-to-underscore lemma normalization and the most-common-sense
  choice the NLTK call makes). -/
  resolve : String → Option Nat
  /-- Lemma names of a synset, `synset.lemmas()` names, underscored. -/
  lemmaNames : Nat → List String
  /-- Immediate hypernyms, `synset.hypernyms()`. -/
  hypernyms : Nat → List Nat
  /-- NLTK `a.lowest_common_hypernyms(b)`. -/
  lch : Nat → Nat → List Nat
  /-- Head lemma of `synset.name()`, as used by `is_abstract_category`. -/
  headLemma : Nat → String
  /-- Function `get_synset_wnid(synset)`. -/
  wnid : Nat → String

/-- Function `get_synset_name`: first lemma name, underscores to spaces
(WordNet synsets always carry at least one lemma). -/
def get_synset_name (env : WnEnv) (s : Nat) : String :=
  String.mk (((env.lemmaNames s).headD ("")).data.map (fun c => if c = '_' then ' ' else c))

/-- Set `ABSTRACT_CATEGORIES` of `core/wordnet.py`. -/
def ABSTRACT_CATEGORIES : List String :=
  ["entity", "abstraction", "communication", "measure", "attribute", "state",
   "event", "act", "group", "relation", "possession", "phenomenon"]

/-- Function `is_abstract_category(synset)`. -/
def is_abstract_category (env : WnEnv) (s : Nat) : Bool :=
  env.headLemma s ∈ ABSTRACT_CATEGORIES

/-- Blacklist inside `get_lca_name` (a Python set; the duplicate
`'matter'` in the source literal is absorbed). -/
def LCA_BLACKLIST : List String :=
  ["entity", "physical entity", "abstraction", "object", "whole", "matter",
   "metric unit", "unit", "causal agent", "variable", "substance", "group"]

/-- Iterated `lowest_common_hypernyms` loop of `get_lca_name`. -/
def iterLCA (env : WnEnv) : Nat → List Nat → Option Nat
  | cur, [] => some cur
  | cur, s :: rest =>
    match env.lch cur s with
    | [] => none
    | l :: _ => iterLCA env l rest

/-- Function `get_lca_name(terms)`: resolve the terms, iterate the LCA,
reject blacklisted or abstract results. -/
def get_lca_name (env : WnEnv) (terms : List String) : Option String :=
  if terms = [] then none
  else
    match terms.filterMap env.resolve with
    | s0 :: s1 :: rest =>
      match iterLCA env s0 (s1 :: rest) with
      | none => none
      | some lca =>
        let name := get_synset_name env lca
        if pyLower name ∈ LCA_BLACKLIST ∨ is_abstract_category env lca then none
        else some name
    | _ => none

/-! ### Medoid computation (`get_medoid_name` and the medoid block of
`_generate_descriptive_name`)

Embeddings are vectors over `ℚ`. `np.argmin` of Euclidean distances
equals the argmin of squared distances (square root is strictly
monotone), so the embedding compares squared distances and needs no
irrational arithmetic. -/

def Vec := List ℚ
deriving DecidableEq

def Mat := List Vec
deriving DecidableEq

def vecAdd (a b : Vec) : Vec := List.zipWith (fun x y => x + y) a b

/-- Row-wise mean, `np.mean(m, axis=0)`. -/
def centroid (m : Mat) : Vec :=
  match m with
  | [] => []
  | r :: rest => (rest.foldl vecAdd r).map (fun x => x / (m.length : ℚ))

/-- Squared Euclidean distance. -/
def sqDist (a b : Vec) : ℚ :=
  (List.zipWith (fun x y => (x - y) * (x - y)) a b).foldl (fun x y => x + y) 0

/-- Index of the first minimum, `np.argmin`. -/
def argminAux : List ℚ → Nat → ℚ → Nat → Nat
  | [], _, _, best => best
  | x :: rest, i, bestV, best =>
    if x < bestV then argminAux rest (i + 1) x i else argminAux rest (i + 1) bestV best

def argminQ : List ℚ → Option Nat
  | [] => none
  | x :: rest => some (argminAux rest 1 x 0)

/-- Medoid block shared by `get_medoid_name` and
`_generate_descriptive_name`: centroid, distances, argmin, indexed term.
`none` models the caught numpy/indexing exception paths (empty
embedding matrix, index out of range). -/
def medoidTerm (embs : Mat) (terms : List String) : Option String :=
  match embs with
  | [] => none
  | _ =>
    let c := centroid embs
    let dists := embs.map (sqDist c)
    match argminQ dists with
    | none => none
    | some i => terms.get? i

/-- Function `get_medoid_name(cluster_embeddings, cluster_terms)`: the
medoid's first hypernym's display name, unless empty or too generic. -/
def get_medoid_name (env : WnEnv) (cluster_embeddings : Mat)
    (cluster_terms : List String) : Option String :=
  if cluster_terms = [] then none
  else
    match medoidTerm cluster_embeddings cluster_terms with
    | none => none
    | some m =>
      match env.resolve m with
      | none => none
      | some synset =>
        match env.hypernyms synset with
        | [] => none
        | h :: _ =>
          let name := get_synset_name env h
          if name ≠ "" ∧ pyLower name ∉ ["entity", "object", "whole"] then some name
          else none

/-- Metadata dictionary built by `_generate_descriptive_name` (the keys
the function writes). -/
structure NameMeta where
  wnid : Option String
  source : String
  examples : List String
  medoid_term : Option String
  medoid_hypernym : Option String
deriving DecidableEq

/-- Python truthiness of an optional string. -/
def pyTruthy : Option String → Bool
  | none => false
  | some s => s ≠ ""

/-- Function `_generate_descriptive_name(lca_name, cluster_embeddings,
cluster_terms)`: validate the LCA against the medoid, else fall back to
the medoid hypernym, else the generic "Group". The source tests Python
truthiness (`if lca_name and medoid_term:`, `not medoid_term`), which is
false for the empty string as well as for None; both tests go through
`pyTruthy`. -/
def generate_descriptive_name (env : WnEnv) (lca_name : Option String)
    (cluster_embeddings : Mat) (cluster_terms : List String) : String × NameMeta :=
  let medoid_hypernym := get_medoid_name env cluster_embeddings cluster_terms
  let medoid_term := medoidTerm cluster_embeddings cluster_terms
  let lca_valid :=
    match lca_name, medoid_term with
    | some ln, some mt =>
      if ln ≠ "" ∧ mt ≠ "" then
        match env.resolve ln, env.resolve mt with
        | some ls, some ms =>
          (match env.lch ms ls with
           | l :: _ => l = ls
           | [] => false) || (pyLower ln == pyLower mt)
        | _, _ => false
      else false
    | _, _ => false
  let base : NameMeta :=
    { wnid := none, source := "fallback", examples := cluster_terms.take 3,
      medoid_term := medoid_term, medoid_hypernym := medoid_hypernym }
  if pyTruthy lca_name ∧ (pyTruthy medoid_term = false ∨ lca_valid = true) then
    let ln := lca_name.getD ("")
    (ln, { base with source := "lca", wnid := (env.resolve ln).map env.wnid })
  else
    match medoid_hypernym with
    | some mh =>
      (mh, { base with source := "medoid_hypernym", wnid := (env.resolve mh).map env.wnid })
    | none => ("Group", base)

/-! ### UMAP cache and reducer (`core/arranger.py`,
`compute_umap_embeddings`)

The umap library is external: `fit` is `reducer.fit_transform` (with
`none` an exception caught by the source), `available` whether
`import umap` succeeds, and `hashA` the `_hash_array` content hash,
abstract because it reads the IEEE-754 byte image of the array. The
module-global `_UMAP_CACHE` dict is the threaded insertion-ordered
association list. -/

structure UmapEnv where
  available : Bool
  hashA : Mat → String
  fit : Nat → Nat → ℚ → Mat → Option Mat

def UmapKey := String × Nat × ℚ × Nat
deriving DecidableEq

def UMAP_CACHE_MAX_SIZE : Nat := 10

def umapCacheLookup (cache : List (UmapKey × Mat)) (key : UmapKey) : Option Mat :=
  (cache.find? (fun e => e.1 = key)).map Prod.snd

/-- Function `compute_umap_embeddings(embeddings, n_components,
n_neighbors, min_dist)`: passthrough under 16 samples or without umap;
else consult the cache, fit, evict the oldest entry at capacity, insert.
Returns the result and the updated cache. -/
def compute_umap_embeddings (env : UmapEnv) (cache : List (UmapKey × Mat))
    (embeddings : Mat) (n_components n_neighbors : Nat) (min_dist : ℚ) :
    Mat × List (UmapKey × Mat) :=
  if !env.available then (embeddings, cache)
  else
    let n_samples := embeddings.length
    if n_samples < 16 then (embeddings, cache)
    else
      let key : UmapKey := (env.hashA embeddings, n_neighbors, min_dist, n_components)
      match umapCacheLookup cache key with
      | some r => (r, cache)
      | none =>
        match env.fit n_neighbors n_components min_dist embeddings with
        | none => (embeddings, cache)
        | some result =>
          let cache' := if UMAP_CACHE_MAX_SIZE ≤ cache.length then cache.drop 1 else cache
          (result, cache' ++ [(key, result)])

/-! ### Arranger (`core/arranger.py`, `_arrange_single_pass` and
`arrange_list`)

The sentence-transformers encoder (behind the two-tier embedding cache,
which is functionally transparent within a process) and the hdbscan
clusterer are external: `embed` returns the embedding matrix for a term
list, `hdbscan` returns `(labels_, probabilities_)` for
`(min_cluster_size, min_samples, cluster_selection_method, data)`, with
`none` an exception caught by the source. Python returns tuples of
varying arity depending on `return_stats` / `return_metadata`; the
embedding always carries all components. -/

structure ArrangeEnv where
  wn : WnEnv
  tfidf : TfidfEnv
  umap : UmapEnv
  depsOk : Bool
  embed : String → List String → Mat
  hdbscan : Nat → Nat → String → Mat → Option (List Int × List ℚ)

/-- Function `normalize_term(term)`: `term.lower().strip()`. -/
def normalize_term (t : String) : String := pyStrip (pyLower t)

/-- Generic association-list lookup (Python `k in d` / `d[k]` on the
string-keyed dicts of the arranger). -/
def alookup {α : Type} (es : List (String × α)) (k : String) : Option α :=
  match es with
  | [] => none
  | (k', v) :: rest => if k' = k then some v else alookup rest k

/-- Counter loop `while name in named_groups: name = f"{orig} {counter}"`
(fuel-structured; `existing.length + 1` candidates always contain a free
one). -/
def uniqueNameF {α : Type} : Nat → List (String × α) → String → Nat → String
  | 0, _, base, cnt => base ++ " " ++ toString cnt
  | fuel + 1, existing, base, cnt =>
    let cand := base ++ " " ++ toString cnt
    if (alookup existing cand).isSome then uniqueNameF fuel existing base (cnt + 1) else cand

def uniqueCounterName {α : Type} (existing : List (String × α)) (name : String) : String :=
  if (alookup existing name).isSome then uniqueNameF (existing.length + 1) existing name 2
  else name

/-- Helper for `re.sub(r'\([^)]*\)', '', s)`: drop through the first
closing parenthesis, if any. -/
def dropParenGroup : List Char → Option (List Char)
  | [] => none
  | c :: rest => if c = ')' then some rest else dropParenGroup rest

/-- Fuel-structured body of the parenthesis-removing regex. -/
def removeParensF : Nat → List Char → List Char
  | 0, l => l
  | _ + 1, [] => []
  | fuel + 1, c :: rest =>
    if c = '(' then
      match dropParenGroup rest with
      | some rest' => removeParensF fuel rest'
      | none => c :: removeParensF fuel rest
    else c :: removeParensF fuel rest

/-- Python `re.sub(r'\([^)]*\)', '', s)`. -/
def removeParens (s : String) : String :=
  String.mk (removeParensF s.data.length s.data)

/-- Accumulating splitter behind `pySplitWs`; `acc` holds the current
word reversed. -/
def splitWsAux : List Char → List Char → List String
  | acc, [] => if acc = [] then [] else [String.mk acc.reverse]
  | acc, c :: rest =>
    if c.isWhitespace then
      (if acc = [] then splitWsAux [] rest
       else String.mk acc.reverse :: splitWsAux [] rest)
    else splitWsAux (c :: acc) rest

/-- Python `s.split()`: split on whitespace runs, dropping empties. -/
def pySplitWs (s : String) : List String := splitWsAux [] s.data

/-- Grouping loop over `enumerate(labels)`: clusters keyed by label in
first-occurrence order, each holding its index list. -/
def addToClusters (cs : List (Int × List Nat)) (lab : Int) (i : Nat) : List (Int × List Nat) :=
  match cs with
  | [] => [(lab, [i])]
  | (l, idxs) :: rest =>
    if l = lab then (l, idxs ++ [i]) :: rest else (l, idxs) :: addToClusters rest lab i

def buildClusters (labels : List Int) : List (Int × List Nat) :=
  (labels.enum.filter (fun p => p.2 ≠ -1)).foldl (fun cs p => addToClusters cs p.2 p.1) []

/-- Diagnostic stats dict of one clustering pass. The source stores
`round(mean_prob, 3)` (float bankers rounding) in `details`; the
embedding keeps the exact mean, which no claim observes. -/
structure PassStats where
  n_clusters_found : Nat
  n_clusters_rejected : Nat
  noiseShare : ℚ
  details : List (Nat × ℚ × Bool × List String)
deriving DecidableEq

def emptyPassStats : PassStats := ⟨0, 0, 0, []⟩

/-- Hybrid-naming metadata extension written during collision handling. -/
structure NameMeta2 where
  base : NameMeta
  tfidf_keyword : Option String
  is_hybrid : Bool
deriving DecidableEq

/-- State of the naming fold of `_arrange_single_pass`: named groups,
metadata, used indices, rejected count, detail rows. -/
structure PassState where
  named_groups : List (String × List String)
  group_metadata : List (String × NameMeta2)
  used : List Nat
  rejected : Nat
  details : List (Nat × ℚ × Bool × List String)

/-- Per-cluster step of `_arrange_single_pass`: threshold filter, naming
cascade, hybrid collision handling, counter suffixes. -/
def clusterStep (env : ArrangeEnv) (terms : List String) (embeddings : Mat)
    (probabilities : List ℚ) (threshold : ℚ)
    (st : PassState) (cl : Int × List Nat) : PassState :=
  let indices := cl.2
  let probs := indices.map (fun i => probabilities.getD i 0)
  let mean_prob := probs.foldl (fun x y => x + y) 0 / (probs.length : ℚ)
  let cluster_items := indices.map (fun i => terms.getD i (""))
  let details' := st.details ++
    [(indices.length, mean_prob, decide (threshold ≤ mean_prob), cluster_items.take 3)]
  if mean_prob < threshold then
    { st with rejected := st.rejected + 1, details := details' }
  else
    let lca_name := get_lca_name env.wn cluster_items
    let cluster_embs := indices.map (fun i => embeddings.getD i [])
    let r := generate_descriptive_name env.wn lca_name cluster_embs cluster_items
    let base_name := r.1
    let nm0 : NameMeta2 := ⟨r.2, none, false⟩
    let hybrid :=
      if (alookup st.named_groups base_name).isSome || base_name = "Group" then
        let suffix1 :=
          if base_name = "Group" then
            let other_terms_in_pass := terms.filter (fun t => t ∉ cluster_items)
            match extract_unique_keywords env.tfidf cluster_items other_terms_in_pass 1 with
            | kw :: _ => pyTitle kw
            | [] => ""
          else ""
        let nm1 := if suffix1 ≠ "" then { nm0 with tfidf_keyword := some suffix1 } else nm0
        let suffix :=
          if suffix1 = "" then
            let medoid_term := (nm0.base.medoid_term).getD ("")
            if medoid_term ≠ "" ∧ medoid_term ≠ base_name then
              let clean_medoid := pyStrip (removeParens medoid_term)
              if (pySplitWs clean_medoid).length ≤ 2 then clean_medoid else ""
            else ""
          else suffix1
        if suffix ≠ "" then
          (if base_name = "Group" then "Group (" ++ suffix ++ ")"
           else base_name ++ " (" ++ suffix ++ ")",
           { nm1 with is_hybrid := true })
        else (base_name, nm1)
      else (base_name, nm0)
    let final_name := uniqueCounterName st.named_groups hybrid.1
    { st with
      named_groups := st.named_groups ++ [(final_name, pySort cluster_items)],
      group_metadata := st.group_metadata ++ [(final_name, hybrid.2)],
      used := st.used ++ indices,
      details := details' }

/-- Function `_arrange_single_pass(terms, embeddings, min_cluster_size,
threshold, cluster_selection_method, min_samples, **umap kwargs)`.
Returns `(groups, leftovers, stats, metadata)` plus the threaded UMAP
cache. -/
def arrange_single_pass (env : ArrangeEnv) (umapCache : List (UmapKey × Mat))
    (terms : List String) (embeddings : Mat) (min_cluster_size : Nat) (threshold : ℚ)
    (cluster_selection_method : String) (min_samples : Option Nat)
    (umap_n_neighbors : Nat) (umap_min_dist : ℚ) (umap_n_components : Nat) :
    List (String × List String) × List String × PassStats ×
      List (String × NameMeta2) × List (UmapKey × Mat) :=
  let ms := min_samples.getD min_cluster_size
  if terms.length < min_cluster_size + 1 then ([], terms, emptyPassStats, [], umapCache)
  else
    let ur := compute_umap_embeddings env.umap umapCache embeddings
      umap_n_components umap_n_neighbors umap_min_dist
    match env.hdbscan min_cluster_size ms cluster_selection_method ur.1 with
    | none => ([], terms, emptyPassStats, [], ur.2)
    | some (labels, probabilities) =>
      let clusters := buildClusters labels
      let noise_count := labels.count (-1)
      let noiseShare : ℚ :=
        if 0 < labels.length then (noise_count : ℚ) / (labels.length : ℚ) else 0
      let sortedClusters := List.insertionSort (fun a b => b.2.length ≤ a.2.length) clusters
      let fin := sortedClusters.foldl
        (clusterStep env terms embeddings probabilities threshold) ⟨[], [], [], 0, []⟩
      let leftovers := (terms.enum.filter (fun p => p.1 ∉ fin.used)).map Prod.snd
      (fin.named_groups, pySort leftovers,
       ⟨clusters.length, fin.rejected, noiseShare, fin.details⟩,
       fin.group_metadata, ur.2)

/-- Merge loop of pass 2 into pass 1 of `arrange_list`, resolving name
collisions with integer suffixes. -/
def mergePass2 (final : List (String × List String)) (fmeta : List (String × NameMeta2))
    (g2 : List (String × List String)) (m2 : List (String × NameMeta2)) :
    List (String × List String) × List (String × NameMeta2) :=
  g2.foldl (fun acc kv =>
    let fname := uniqueCounterName acc.1 kv.1
    (acc.1 ++ [(fname, kv.2)],
     match alookup m2 kv.1 with
     | some mv => acc.2 ++ [(fname, mv)]
     | none => acc.2)) (final, fmeta)

/-- Function `arrange_list(terms, model_name, threshold,
min_cluster_size, cluster_selection_method, **kwargs)`: short-circuits,
pass 1, then the leftover recovery pass when leftovers exceed 20 and the
configured cluster size exceeds 2. Returns
`(groups, leftovers, metadata)` plus the threaded UMAP cache. -/
def arrange_list (env : ArrangeEnv) (umapCache : List (UmapKey × Mat))
    (terms : List String) (model_name : String) (threshold : ℚ) (min_cluster_size : Nat)
    (cluster_selection_method : String) (min_samples : Option Nat)
    (umap_n_neighbors : Nat) (umap_min_dist : ℚ) (umap_n_components : Nat) :
    List (String × List String) × List String ×
      List (String × NameMeta2) × List (UmapKey × Mat) :=
  if terms = [] ∨ terms.length < 3 then ([], terms, [], umapCache)
  else if !env.depsOk then ([], terms, [], umapCache)
  else
    let normalized := terms.map normalize_term
    let embeddings := env.embed model_name normalized
    if embeddings.length = 0 then ([], terms, [], umapCache)
    else
      let p1 := arrange_single_pass env umapCache terms embeddings min_cluster_size
        threshold cluster_selection_method min_samples
        umap_n_neighbors umap_min_dist umap_n_components
      let groups_1 := p1.1
      let leftovers_1 := p1.2.1
      let meta_1 := p1.2.2.2.1
      let cache_1 := p1.2.2.2.2
      if 20 < leftovers_1.length ∧ 2 < min_cluster_size then
        let leftover_indices := (terms.enum.filter (fun p => p.2 ∈ leftovers_1)).map Prod.fst
        let leftover_embeddings := leftover_indices.map (fun i => embeddings.getD i [])
        let p2 := arrange_single_pass env cache_1 leftovers_1 leftover_embeddings 2
          (max (3/20) (threshold * (3/2))) ("leaf") (some 2) 15 (1/10) 5
        let merged := mergePass2 groups_1 meta_1 p2.1 p2.2.2.2.1
        (merged.1, p2.2.1, merged.2, p2.2.2.2.2)
      else (groups_1, leftovers_1, meta_1, cache_1)

/-! ### Shaped normal form

Decidable description of structures the Shaper leaves untouched: leaf
lists sorted, duplicate-free, lower-cased and meeting `min_leaf_size`;
keys unique, title-cased and not generic bins; no tautological child
keys. The amended idempotence law (C5) holds on this class. -/

/-- Adjacent-sortedness of a string list. -/
def isSortedStr : List String → Bool
  | [] => true
  | [_] => true
  | a :: b :: rest => strLe a b && isSortedStr (b :: rest)

/-- Duplicate-freeness of a string list. -/
def nodupB : List String → Bool
  | [] => true
  | x :: rest => decide (x ∉ rest) && nodupB rest

/-- Leaf lists the Shaper fixes: sorted, duplicate-free, lower-case. -/
def goodListB (l : List String) : Bool :=
  isSortedStr l && nodupB l && l.all (fun s => pyLower s == s)

mutual
/-- Shaped normal form of a structure (see the section comment). -/
def SNF (minSize : Nat) : PyNode → Bool
  | .list l => goodListB l
  | .dict es => nodupB (es.map Prod.fst) && SNFEntries minSize es

/-- Entry-wise conditions of `SNF`. -/
def SNFEntries (minSize : Nat) : List (String × PyNode) → Bool
  | [] => true
  | (k, v) :: rest =>
    !isGenericBinKey k && (pyTitle k == k) && SNF minSize v &&
    (match v with
     | .list l => decide (minSize ≤ l.length)
     | .dict ves => ves.all (fun ckv => !(pyStrip (pyLower ckv.1) == pyStrip (pyLower k)))) &&
    SNFEntries minSize rest
end

/-! ### Concrete environments and inputs for witnesses and
counterexamples -/

/-- TF-IDF environment whose vectorizer always fails (the source then
falls back to generic labels). -/
def cTfidfEnv : TfidfEnv := ⟨fun _ _ => none⟩

/-- Shaper environment: arranger import succeeds, vectorizer fails. -/
def cShaperEnv : ShaperEnv := ⟨cTfidfEnv, true⟩

/-- Small WordNet table: `"t0"` resolves to synset 7 whose hypernym 8 is
displayed `"hyper"`; every other surface string is unresolvable. -/
def cWnEnv : WnEnv where
  resolve := fun s => if s = "t0" then some 7 else none
  lemmaNames := fun s => if s = 8 then ["hyper"] else ["node"]
  hypernyms := fun s => if s = 7 then [8] else []
  lch := fun _ _ => []
  headLemma := fun _ => "thing"
  wnid := fun n => "n" ++ toString n

/-- UMAP environment: library available, constant content hash, reducer
returning the fixed matrix `[[99]]`. -/
def cUmapEnv : UmapEnv where
  available := true
  hashA := fun _ => "h"
  fit := fun _ _ _ _ => some [[99]]

/-- Arranger environment over the concrete sub-environments; the encoder
embeds every term as `[0]` and the clusterer raises. -/
def cArrangeEnv : ArrangeEnv where
  wn := cWnEnv
  tfidf := cTfidfEnv
  umap := cUmapEnv
  depsOk := true
  embed := fun _ ts => ts.map (fun _ => [0])
  hdbscan := fun _ _ _ _ => none

/-- A 16-row embedding matrix. -/
def emb16 : Mat := (List.range 16).map (fun i => [(i : ℚ)])

/-- Property of a leaf list in the claims about the Shaper's output:
sorted in Python's string order, duplicate-free, and fixed by
lower-casing. -/
def GoodLeafList (l : List String) : Prop :=
  List.Sorted (fun a b => strLe a b = true) l ∧ l.Nodup ∧ ∀ s ∈ l, pyLower s = s

/-! ## Theorems -/

/-! ### Sanity anchors for the MD5 embedding (RFC 1321 test vectors) -/

example : md5Hex "" = "d41d8cd98f00b204e9800998ecf8427e" := by decide

example : md5Hex "abc" = "900150983cd24fb0d6963f7d28e17f72" := by decide

example : md5Hex "message digest" = "f96b697d7cb7938d525a2f31aaf161d0" := by decide

/-! ### Order and sorting helpers -/

theorem charListLe_total (a b : List Char) :
    charListLe a b = true ∨ charListLe b a = true := by
  induction a generalizing b with
  | nil => exact Or.inl rfl
  | cons x xs ih =>
    cases b with
    | nil => exact Or.inr rfl
    | cons y ys =>
      rcases Nat.lt_trichotomy x.toNat y.toNat with h | h | h
      · exact Or.inl (by simp [charListLe, h])
      · rcases ih ys with h2 | h2
        · exact Or.inl (by simp [charListLe, h, h2])
        · exact Or.inr (by simp [charListLe, h, h2])
      · exact Or.inr (by simp [charListLe, h])

theorem charListLe_trans {a b c : List Char} (h1 : charListLe a b = true)
    (h2 : charListLe b c = true) : charListLe a c = true := by
  induction a generalizing b c with
  | nil => rfl
  | cons x xs ih =>
    cases b with
    | nil => simp [charListLe] at h1
    | cons y ys =>
      cases c with
      | nil => simp [charListLe] at h2
      | cons z zs =>
        simp only [charListLe] at h1 h2 ⊢
        split_ifs at h1 h2 ⊢ <;>
          first
            | rfl
            | omega
            | (exact ih h1 h2)

theorem charLe_eq_of_anti {x y : Char} (h : x.toNat = y.toNat) : x = y := by
  have hx := Char.ofNat_toNat x
  rw [← hx, h, Char.ofNat_toNat]

theorem charListLe_antisymm {a b : List Char} (h1 : charListLe a b = true)
    (h2 : charListLe b a = true) : a = b := by
  induction a generalizing b with
  | nil =>
    cases b with
    | nil => rfl
    | cons y ys => simp [charListLe] at h2
  | cons x xs ih =>
    cases b with
    | nil => simp [charListLe] at h1
    | cons y ys =>
      simp only [charListLe] at h1 h2
      rcases Nat.lt_trichotomy x.toNat y.toNat with h | h | h
      · rw [if_neg (Nat.lt_asymm h), if_pos h] at h2
        exact absurd h2 (by simp)
      · rw [if_neg (by omega), if_neg (by omega)] at h1
        rw [if_neg (by omega), if_neg (by omega)] at h2
        rw [charLe_eq_of_anti h, ih h1 h2]
      · rw [if_neg (Nat.lt_asymm h), if_pos h] at h1
        exact absurd h1 (by simp)

theorem strLe_total (a b : String) : strLe a b = true ∨ strLe b a = true :=
  charListLe_total a.data b.data

theorem strLe_trans {a b c : String} (h1 : strLe a b = true)
    (h2 : strLe b c = true) : strLe a c = true :=
  charListLe_trans h1 h2

theorem strLe_antisymm {a b : String} (h1 : strLe a b = true)
    (h2 : strLe b a = true) : a = b :=
  String.ext (charListLe_antisymm h1 h2)

theorem orderedInsertB_perm (le : String → String → Bool) (a : String)
    (l : List String) : (orderedInsertB le a l).Perm (a :: l) := by
  induction l with
  | nil => simp [orderedInsertB]
  | cons b t ih =>
    simp only [orderedInsertB]
    split_ifs
    · exact List.Perm.refl _
    · exact (ih.cons b).trans (List.Perm.swap a b t)

theorem insertionSortB_perm (le : String → String → Bool) (l : List String) :
    (insertionSortB le l).Perm l := by
  induction l with
  | nil => simp [insertionSortB]
  | cons a t ih =>
    exact (orderedInsertB_perm le a (insertionSortB le t)).trans (ih.cons a)

theorem pySort_perm (l : List String) : (pySort l).Perm l :=
  insertionSortB_perm strLe l

theorem sorted_orderedInsertB (le : String → String → Bool)
    (htot : ∀ a b, le a b = true ∨ le b a = true)
    (htrans : ∀ {a b c}, le a b = true → le b c = true → le a c = true)
    (a : String) (l : List String)
    (h : List.Sorted (fun x y => le x y = true) l) :
    List.Sorted (fun x y => le x y = true) (orderedInsertB le a l) := by
  induction l with
  | nil => simp [orderedInsertB]
  | cons b t ih =>
    rw [List.sorted_cons] at h
    simp only [orderedInsertB]
    split_ifs with hab
    · refine List.sorted_cons.2 ⟨?_, List.sorted_cons.2 h⟩
      intro y hy
      rcases List.mem_cons.1 hy with hy' | hy'
      · exact hy' ▸ hab
      · exact htrans hab (h.1 y hy')
    · have hba : le b a = true := (htot a b).resolve_left (by simpa using hab)
      refine List.sorted_cons.2 ⟨?_, ih h.2⟩
      intro y hy
      rcases List.mem_cons.1 ((orderedInsertB_perm le a t).mem_iff.1 hy) with hy' | hy'
      · exact hy' ▸ hba
      · exact h.1 y hy'

theorem sorted_insertionSortB (le : String → String → Bool)
    (htot : ∀ a b, le a b = true ∨ le b a = true)
    (htrans : ∀ {a b c}, le a b = true → le b c = true → le a c = true)
    (l : List String) :
    List.Sorted (fun x y => le x y = true) (insertionSortB le l) := by
  induction l with
  | nil => simp [insertionSortB]
  | cons a t ih =>
    exact sorted_orderedInsertB le htot htrans a (insertionSortB le t) ih

theorem pySort_sorted (l : List String) :
    List.Sorted (fun x y => strLe x y = true) (pySort l) :=
  sorted_insertionSortB strLe strLe_total strLe_trans l

theorem pySort_eq_of_perm {l₁ l₂ : List String} (h : l₁.Perm l₂) :
    pySort l₁ = pySort l₂ := by
  letI : IsAntisymm String (fun x y => strLe x y = true) := ⟨fun _ _ => strLe_antisymm⟩
  exact List.eq_of_perm_of_sorted
    ((pySort_perm l₁).trans (h.trans (pySort_perm l₂).symm))
    (pySort_sorted l₁) (pySort_sorted l₂)

/-! ### C1 — embedding-cache key -/

/-- C1 (counterexample): `["a", "a"]` and `["a"]` have the same
underlying set of terms, yet `get_cached_embeddings` computes different
cache keys, and the key for `["a", "a"]` is not the digest of the
`|`-joined sorted unique term list the spec describes — the source joins
`sorted(terms)` without deduplication. -/
theorem C1_counterexample :
    (["a", "a"] : List String).toFinset = (["a"] : List String).toFinset ∧
    get_cached_embeddings_key ["a", "a"] ≠ get_cached_embeddings_key ["a"] ∧
    get_cached_embeddings_key ["a", "a"] ≠ spec_cache_key ["a", "a"] :=
  ⟨by decide, by decide, by decide⟩

/-- C1 (amended): the cache key is invariant under reordering of the
term list (equal multisets share a key): it is the MD5 hex digest of the
`|`-joined sorted term list, duplicates included. -/
theorem C1_theorem (t₁ t₂ : List String) (h : t₁.Perm t₂) :
    get_cached_embeddings_key t₁ = get_cached_embeddings_key t₂ := by
  unfold get_cached_embeddings_key
  rw [pySort_eq_of_perm h]

/-- Witness for C1: two concrete reorderings share the cache key. -/
theorem C1_witness :
    (["b", "a"] : List String).Perm ["a", "b"] ∧
    get_cached_embeddings_key ["b", "a"] = get_cached_embeddings_key ["a", "b"] :=
  ⟨by decide, C1_theorem ["b", "a"] ["a", "b"] (by decide)⟩

/-! ### C3 — UMAP passthrough boundary -/

/-- C3 (counterexample): a 16-row matrix has fewer rows than
`n_neighbors + 1` for `n_neighbors = 20`, yet `compute_umap_embeddings`
does not return it unchanged and does insert into the UMAP cache — the
source's passthrough cutoff is the fixed `n_samples < 16`, not
`n_neighbors + 1`. -/
theorem C3_counterexample :
    emb16.length < 20 + 1 ∧
    (compute_umap_embeddings cUmapEnv [] emb16 5 20 (1/10)).1 ≠ emb16 ∧
    (compute_umap_embeddings cUmapEnv [] emb16 5 20 (1/10)).2 ≠ [] :=
  ⟨by decide, by decide, by decide⟩

/-- C3 (amended): for every embedding matrix with fewer than 16 rows
(the fixed cutoff the source derives from the default 15 neighbors),
`compute_umap_embeddings` returns the input unchanged and leaves the
UMAP cache untouched, for every configured `n_neighbors`, `min_dist`,
`n_components`, cache state and reducer environment. -/
theorem C3_theorem (env : UmapEnv) (cache : List (UmapKey × Mat)) (emb : Mat)
    (nc nn : Nat) (md : ℚ) (h : emb.length < 16) :
    compute_umap_embeddings env cache emb nc nn md = (emb, cache) := by
  unfold compute_umap_embeddings
  cases henv : env.available <;> simp [henv, h]

/-- Witness for C3: a 3-row matrix passes through with the cache
untouched. -/
theorem C3_witness :
    ([[0], [1], [2]] : Mat).length < 16 ∧
    compute_umap_embeddings cUmapEnv [] [[0], [1], [2]] 5 15 (1/10) =
      (([[0], [1], [2]] : Mat), []) :=
  ⟨by decide, C3_theorem cUmapEnv [] [[0], [1], [2]] 5 15 (1/10) (by decide)⟩

/-! ### C7 — budget bound -/

/-- Exhausted budgets grant nothing for the rest of a run. -/
theorem runVisits_count_exhausted (B : Nat) :
    ∀ (n : Nat) (cur : Nat),
      ((runVisits ⟨some B, cur, true⟩ n).2.count true) = 0 := by
  intro n
  induction n with
  | zero => intro cur; simp [runVisits]
  | succ n ih =>
    intro cur
    simpa [runVisits, TraversalBudget.consume] using ih cur

/-- Invariant of a run of `consume(1)` calls from a non-exhausted state:
the number of granted visits never exceeds the remaining budget. -/
theorem runVisits_count_le (B : Nat) :
    ∀ (n : Nat) (cur : Nat),
      ((runVisits ⟨some B, cur, false⟩ n).2.count true) ≤ B - cur := by
  intro n
  induction n with
  | zero => intro cur; simp [runVisits]
  | succ n ih =>
    intro cur
    by_cases h1 : cur + 1 > B
    · have h := runVisits_count_exhausted B n (cur + 1)
      simp [runVisits, TraversalBudget.consume, h1, h]
    · by_cases h2 : cur + 1 = B
      · subst h2
        have h := runVisits_count_exhausted (cur + 1) n (cur + 1)
        simp [runVisits, TraversalBudget.consume, h]
      · have h := ih (cur + 1)
        simp [runVisits, TraversalBudget.consume, h1, h2]
        omega

/-- C7: in a run of `n` node visits each calling `budget.consume(1)`, at
most `B` visits are granted when the limit is `B`; and a consume on an
exhausted budget returns failure and leaves the budget unchanged, so an
exhausted budget never grants again within the run. -/
theorem C7_theorem (B n : Nat) (b : TraversalBudget) (hL : b.limit = some B)
    (hex : b.exhausted = true) :
    ((runVisits (TraversalBudget.init (some B)) n).2.count true) ≤ B ∧
    (b.consume 1).1 = false ∧ (b.consume 1).2 = b := by
  refine ⟨?_, ?_, ?_⟩
  · have h := runVisits_count_le B n 0
    simpa [TraversalBudget.init] using h
  · obtain ⟨lim, cur, ex⟩ := b
    cases hL; cases hex
    simp [TraversalBudget.consume]
  · obtain ⟨lim, cur, ex⟩ := b
    cases hL; cases hex
    simp [TraversalBudget.consume]

/-- Witness for C7 at `B = 2`, five visits, and a concrete exhausted
budget. -/
theorem C7_witness :
    ((runVisits (TraversalBudget.init (some 2)) 5).2.count true) ≤ 2 ∧
    ((⟨some 2, 2, true⟩ : TraversalBudget).consume 1).1 = false ∧
    ((⟨some 2, 2, true⟩ : TraversalBudget).consume 1).2 = ⟨some 2, 2, true⟩ :=
  C7_theorem 2 5 ⟨some 2, 2, true⟩ rfl rfl

/-! ### C2 — budget-exhaustion events -/

/-- Every visit attempted on an exhausted budget appends exactly one
"limit_reached" event. -/
theorem runGate_count_exhausted (B : Nat) :
    ∀ (n : Nat) (cur : Nat) (E : List String),
      limitEvents (runGate ⟨some B, cur, true⟩ E n).2 = limitEvents E + n := by
  intro n
  induction n with
  | zero => intro cur E; simp [runGate]
  | succ n ih =>
    intro cur E
    have h := ih cur (E ++ ["limit_reached"])
    simp [runGate, visitGate, TraversalBudget.consume, TraversalBudget.isExhausted,
      limitEvents] at h ⊢
    omega

/-- Event count of a gated run from a live state: events appear only for
the visits attempted after the budget runs out. -/
theorem runGate_count (B : Nat) :
    ∀ (n : Nat) (cur : Nat) (E : List String),
      limitEvents (runGate ⟨some B, cur, false⟩ E n).2 =
        limitEvents E + (n - min n (B - cur)) := by
  intro n
  induction n with
  | zero => intro cur E; simp [runGate]
  | succ n ih =>
    intro cur E
    by_cases h1 : cur + 1 > B
    · have h := runGate_count_exhausted B n (cur + 1) (E ++ ["limit_reached"])
      simp [runGate, visitGate, TraversalBudget.consume, TraversalBudget.isExhausted,
        h1, limitEvents] at h ⊢
      omega
    · by_cases h2 : cur + 1 = B
      · have h := runGate_count_exhausted B n (cur + 1) E
        simp [runGate, visitGate, TraversalBudget.consume, TraversalBudget.isExhausted,
          h1, h2, limitEvents] at h ⊢
        omega
      · have h := ih (cur + 1) E
        simp [runGate, visitGate, TraversalBudget.consume, TraversalBudget.isExhausted,
          h1, h2, limitEvents] at h ⊢
        omega

/-- C2 (counterexample): with budget limit 1 and three attempted node
visits, the budget is exhausted and the run records two
`limit_reached` events, not exactly one — `build_commented` logs an
event on every aborted visit after exhaustion. -/
theorem C2_counterexample :
    (runGate (TraversalBudget.init (some 1)) [] 3).1.isExhausted = true ∧
    limitEvents (runGate (TraversalBudget.init (some 1)) [] 3).2 = 2 :=
  ⟨by decide, by decide⟩

/-- C2 (amended): a run of `n` attempted visits under limit `B` records
exactly `n - min n B` "limit_reached" events — one per visit attempted
after exhaustion — and every such aborted visit returns the abort
sentinel while appending exactly one event. -/
theorem C2_theorem (B n : Nat) :
    limitEvents (runGate (TraversalBudget.init (some B)) [] n).2 = n - min n B ∧
    (∀ (b : TraversalBudget) (E : List String), b.limit = some B → b.exhausted = true →
      visitGate b E = (b, E ++ ["limit_reached"], false)) := by
  constructor
  · have h := runGate_count B n 0 []
    simpa [TraversalBudget.init, limitEvents] using h
  · rintro ⟨lim, cur, ex⟩ E hb hex
    cases hb; cases hex
    simp [visitGate, TraversalBudget.consume, TraversalBudget.isExhausted]

/-- Witness for C2 at `B = 1`, `n = 3`, and a concrete exhausted budget
state. -/
theorem C2_witness :
    limitEvents (runGate (TraversalBudget.init (some 1)) [] 3).2 = 3 - min 3 1 ∧
    visitGate ⟨some 1, 2, true⟩ [] = (⟨some 1, 2, true⟩, [] ++ ["limit_reached"], false) :=
  ⟨(C2_theorem 1 3).1, (C2_theorem 1 3).2 ⟨some 1, 2, true⟩ [] rfl rfl⟩

/-! ### C10 — contextual-label shape -/

/-- C10: `generate_contextual_label` returns the fallback unchanged when
the terms list is empty or keyword extraction yields nothing, and in
every case returns either exactly the fallback or the fallback followed
by one parenthesized title-cased keyword; the embedding is total, so no
exception escapes. -/
theorem C10_theorem (env : TfidfEnv) (terms context : List String) (fb : String) :
    (terms = [] → generate_contextual_label env terms context fb = fb) ∧
    (extract_unique_keywords env terms context 1 = [] →
      generate_contextual_label env terms context fb = fb) ∧
    (generate_contextual_label env terms context fb = fb ∨
      ∃ kw, generate_contextual_label env terms context fb = fb ++ " (" ++ pyTitle kw ++ ")") := by
  unfold generate_contextual_label
  refine ⟨fun h => by simp [h], fun h => ?_, ?_⟩
  · by_cases ht : terms = [] <;> simp [ht, h]
  · by_cases ht : terms = []
    · exact Or.inl (by simp [ht])
    · simp only [ht, if_false]
      cases hk : extract_unique_keywords env terms context 1 with
      | nil => exact Or.inl rfl
      | cons kw rest => exact Or.inr ⟨kw, rfl⟩

/-- Witness for C10: the empty term list and a failing vectorizer both
yield the bare fallback, and the concrete call has the claimed shape. -/
theorem C10_witness :
    (([] : List String) = [] →
      generate_contextual_label cTfidfEnv [] [] ("Other") = "Other") ∧
    (extract_unique_keywords cTfidfEnv [] [] 1 = [] →
      generate_contextual_label cTfidfEnv [] [] ("Other") = "Other") ∧
    (generate_contextual_label cTfidfEnv [] [] ("Other") = "Other" ∨
      ∃ kw, generate_contextual_label cTfidfEnv [] [] ("Other") =
        "Other" ++ " (" ++ pyTitle kw ++ ")") :=
  C10_theorem cTfidfEnv [] [] ("Other")

/-! ### C9 — small-pass guard -/

/-- C9: a single clustering pass on fewer terms than
`min_cluster_size + 1` returns the empty group mapping with every input
term as a leftover, with the UMAP cache untouched and the same result
for every clusterer environment (the clusterer is never consulted);
consequently `arrange_list` with `min_cluster_size = 5` (the default)
places no terms into groups for inputs of length 3, 4 or 5, even though
they pass the documented `len < 3` short-circuit. -/
theorem C9_theorem (env : ArrangeEnv) (cache : List (UmapKey × Mat)) (terms : List String)
    (embs : Mat) (mcs : Nat) (thr : ℚ) (method model : String) (msamp : Option Nat)
    (nn : Nat) (md : ℚ) (nc : Nat)
    (h1 : terms.length < mcs + 1) (h2 : terms.length ≤ 20) :
    arrange_single_pass env cache terms embs mcs thr method msamp nn md nc =
      ([], terms, emptyPassStats, [], cache) ∧
    (arrange_list env cache terms model thr mcs method msamp nn md nc).1 = [] ∧
    (arrange_list env cache terms model thr mcs method msamp nn md nc).2.1 = terms := by
  have hsp : ∀ e : Mat,
      arrange_single_pass env cache terms e mcs thr method msamp nn md nc =
        ([], terms, emptyPassStats, [], cache) := by
    intro e
    unfold arrange_single_pass
    simp [h1]
  refine ⟨hsp embs, ?_⟩
  unfold arrange_list
  by_cases ht : terms = [] ∨ terms.length < 3
  · simp [ht]
  · rw [if_neg ht]
    by_cases hd : env.depsOk
    · rw [if_neg (by simp [hd])]
      by_cases he : (env.embed model (terms.map normalize_term)).length = 0
      · simp [he]
      · rw [if_neg he, hsp (env.embed model (terms.map normalize_term))]
        have hn : ¬(20 < terms.length) := by omega
        simp [hn]
    · simp [hd]

/-- Witness for C9 on a three-term input with the default cluster size. -/
theorem C9_witness :
    arrange_single_pass cArrangeEnv [] ["a", "b", "c"] [[0], [0], [0]] 5 (3/20)
        ("eom") none 15 (1/10) 5 = ([], ["a", "b", "c"], emptyPassStats, [], []) ∧
    (arrange_list cArrangeEnv [] ["a", "b", "c"] ("minilm") (3/20) 5
        ("eom") none 15 (1/10) 5).1 = [] ∧
    (arrange_list cArrangeEnv [] ["a", "b", "c"] ("minilm") (3/20) 5
        ("eom") none 15 (1/10) 5).2.1 = ["a", "b", "c"] :=
  C9_theorem cArrangeEnv [] ["a", "b", "c"] [[0], [0], [0]] 5 (3/20) ("eom") ("minilm")
    none 15 (1/10) 5 (by decide) (by decide)

/-! ### C4 — LCA validation in the naming cascade -/

/-- C4 (counterexample): with an LCA candidate `"lcaname"` that fails to
resolve to a sense while the medoid term `"t0"` exists and resolves, the
chosen source is "medoid_hypernym", not "lca" — resolution failure
invalidates the LCA instead of validating it by default. -/
theorem C4_counterexample :
    medoidTerm [[0], [1]] ["t0", "t1"] = some ("t0") ∧
    cWnEnv.resolve ("lcaname") = none ∧
    (generate_descriptive_name cWnEnv (some ("lcaname")) [[0], [1]] ["t0", "t1"]).2.source ≠
      "lca" ∧
    (generate_descriptive_name cWnEnv (some ("lcaname")) [[0], [1]] ["t0", "t1"]).2.source =
      "medoid_hypernym" ∧
    (generate_descriptive_name cWnEnv (some ("lcaname")) [[0], [1]] ["t0", "t1"]).1 =
      "hyper" := by
  have hmed : medoidTerm [[0], [1]] ["t0", "t1"] = some ("t0") := by
    norm_num [medoidTerm, centroid, vecAdd, sqDist, argminQ, argminAux]
  have hgmn : get_medoid_name cWnEnv [[0], [1]] ["t0", "t1"] = some ("hyper") := by
    rw [get_medoid_name, if_neg (by decide)]
    rw [hmed]
    simp only [cWnEnv]
    norm_num [get_synset_name]
    decide
  refine ⟨hmed, by decide, ?_, ?_, ?_⟩ <;>
    · unfold generate_descriptive_name
      rw [hmed, hgmn]
      simp [pyTruthy, cWnEnv]

/-- C4 (amended): with a truthy LCA candidate, the LCA is treated as
valid by default exactly when the medoid term is falsy in Python's sense
— missing because the medoid computation failed, or equal to the empty
string; when a truthy (non-empty) medoid term exists and either the LCA
name or the medoid term fails to resolve to a sense, the LCA is rejected
and the cascade falls to the medoid hypernym when available, else the
generic fallback. -/
theorem C4_theorem (env : WnEnv) (ln : String) (embs : Mat) (terms : List String)
    (hln : ln ≠ "") :
    (pyTruthy (medoidTerm embs terms) = false →
      (generate_descriptive_name env (some ln) embs terms).2.source = "lca" ∧
      (generate_descriptive_name env (some ln) embs terms).1 = ln) ∧
    (∀ m, medoidTerm embs terms = some m → m ≠ "" →
      (env.resolve ln = none ∨ env.resolve m = none) →
      (generate_descriptive_name env (some ln) embs terms).2.source ≠ "lca" ∧
      (generate_descriptive_name env (some ln) embs terms).2.source =
        (if (get_medoid_name env embs terms).isSome then "medoid_hypernym"
         else "fallback")) := by
  constructor
  · intro hm
    cases hmt : medoidTerm embs terms with
    | none => simp [generate_descriptive_name, hmt, pyTruthy, hln]
    | some s =>
      rw [hmt] at hm
      have hs : s = "" := by
        by_contra hne
        simp [pyTruthy, hne] at hm
      subst hs
      simp [generate_descriptive_name, hmt, pyTruthy, hln]
  · intro m hm hmne hres
    have hvalid : (match env.resolve ln, env.resolve m with
        | some ls, some ms =>
          (match env.lch ms ls with
           | l :: _ => decide (l = ls)
           | [] => false) || (pyLower ln == pyLower m)
        | _, _ => false) = false := by
      rcases hres with h | h
      · rw [h]
      · rw [h]
        cases env.resolve ln <;> rfl
    unfold generate_descriptive_name
    rw [hm]
    simp only [pyTruthy, hln, hmne, ne_eq, not_false_eq_true, and_self, if_true,
      decide_not, decide_eq_true_eq]
    rw [hvalid]
    cases hmh : get_medoid_name env embs terms <;> simp [hmh]

/-- Witness for C4: at one embedding row and the single term "", the
medoid term is the falsy empty string, and the theorem's default-valid
branch tags the cluster "lca" with the candidate name. -/
theorem C4_witness :
    pyTruthy (medoidTerm [[0]] [""]) = false ∧
    (generate_descriptive_name cWnEnv (some ("z")) [[0]] [""]).2.source = "lca" ∧
    (generate_descriptive_name cWnEnv (some ("z")) [[0]] [""]).1 = "z" := by
  have hm : pyTruthy (medoidTerm [[0]] [""]) = false := by
    norm_num [medoidTerm, centroid, vecAdd, sqDist, argminQ, argminAux, pyTruthy]
  exact ⟨hm, (C4_theorem cWnEnv ("z") [[0]] [""] (by decide)).1 hm⟩

/-! ### Fixpoint lemmas for the Shaper passes -/

theorem pySort_eq_self {l : List String} (h : isSortedStr l = true) :
    pySort l = l := by
  unfold pySort
  induction l with
  | nil => rfl
  | cons a t ih =>
    cases t with
    | nil => rfl
    | cons b rest =>
      simp only [isSortedStr, Bool.and_eq_true] at h
      rw [show insertionSortB strLe (a :: b :: rest) =
            orderedInsertB strLe a (insertionSortB strLe (b :: rest)) from rfl,
        ih h.2]
      simp [orderedInsertB, h.1]

theorem pyDedup_go_eq_self :
    ∀ (l seen : List String), nodupB l = true → (∀ x ∈ l, x ∉ seen) →
      pyDedup.go seen l = l := by
  intro l
  induction l with
  | nil => intro seen _ _; rfl
  | cons x rest ih =>
    intro seen h hs
    simp only [nodupB, Bool.and_eq_true, decide_eq_true_eq] at h
    have hx : x ∉ seen := hs x (by simp)
    simp only [pyDedup.go, if_neg hx]
    rw [ih (x :: seen) h.2]
    intro y hy
    simp only [List.mem_cons]
    push_neg
    refine ⟨?_, hs y (by simp [hy])⟩
    intro hyx
    subst hyx
    exact absurd hy h.1

theorem pyDedup_eq_self {l : List String} (h : nodupB l = true) : pyDedup l = l :=
  pyDedup_go_eq_self l [] h (by simp)

theorem map_pyLower_eq_self {l : List String}
    (h : l.all (fun s => pyLower s == s) = true) : l.map pyLower = l := by
  induction l with
  | nil => rfl
  | cons x rest ih =>
    simp only [List.all_cons, Bool.and_eq_true, beq_iff_eq] at h
    simp [h.1, ih h.2]

theorem pySortedSet_eq_self {l : List String} (hs : isSortedStr l = true)
    (hn : nodupB l = true) : pySortedSet l = l := by
  unfold pySortedSet
  rw [pyDedup_eq_self hn, pySort_eq_self hs]

theorem goodListB_parts {l : List String} (h : goodListB l = true) :
    isSortedStr l = true ∧ nodupB l = true ∧ ∀ s ∈ l, pyLower s = s := by
  have h' : (isSortedStr l = true ∧ nodupB l = true) ∧ ∀ s ∈ l, pyLower s = s := by
    simpa [goodListB, Bool.and_eq_true] using h
  exact ⟨h'.1.1, h'.1.2, h'.2⟩

/-! ### Normal-form destructuring and pass identity -/

theorem nodupB_cons {a : String} {l : List String} (h : nodupB (a :: l) = true) :
    a ∉ l ∧ nodupB l = true := by
  simpa [nodupB, Bool.and_eq_true, decide_eq_true_eq] using h

theorem SNF_dict {ms : Nat} {es : List (String × PyNode)}
    (h : SNF ms (.dict es) = true) :
    nodupB (es.map Prod.fst) = true ∧ SNFEntries ms es = true := by
  simpa [SNF, Bool.and_eq_true] using h

theorem SNFEntries_cons_parts {ms : Nat} {k : String} {v : PyNode}
    {rest : List (String × PyNode)} (h : SNFEntries ms ((k, v) :: rest) = true) :
    isGenericBinKey k = false ∧ pyTitle k = k ∧ SNF ms v = true ∧
    (∀ l, v = .list l → ms ≤ l.length) ∧
    (∀ ves, v = .dict ves →
      ∀ ckv ∈ ves, pyStrip (pyLower ckv.1) ≠ pyStrip (pyLower k)) ∧
    SNFEntries ms rest = true := by
  cases v with
  | list l =>
    simp only [SNFEntries, Bool.and_eq_true, beq_iff_eq, Bool.not_eq_true',
      decide_eq_true_eq] at h
    obtain ⟨⟨⟨⟨hA, hB⟩, hC⟩, hD⟩, hE⟩ := h
    refine ⟨hA, hB, hC, ?_, ?_, hE⟩
    · intro l' hl
      injection hl with hl'
      subst hl'
      exact hD
    · intro ves hv
      exact absurd hv (by simp)
  | dict ves =>
    simp only [SNFEntries, Bool.and_eq_true, beq_iff_eq, Bool.not_eq_true',
      List.all_eq_true] at h
    obtain ⟨⟨⟨⟨hA, hB⟩, hC⟩, hD⟩, hE⟩ := h
    refine ⟨hA, hB, hC, ?_, ?_, hE⟩
    · intro l' hl
      exact absurd hl (by simp)
    · intro ves' hv ckv hckv
      injection hv with hv'
      subst hv'
      have := hD ckv hckv
      simpa [beq_iff_eq] using this

theorem SNFEntries_not_small {ms : Nat} :
    ∀ {es : List (String × PyNode)}, SNFEntries ms es = true →
      ∀ kv ∈ es, isSmallEntry ms kv = false := by
  intro es
  induction es with
  | nil => intro _ kv hkv; cases hkv
  | cons kv0 rest ih =>
    obtain ⟨k, v⟩ := kv0
    intro h kv' hkv'
    have hp := SNFEntries_cons_parts h
    rcases List.mem_cons.1 hkv' with rfl | hm
    · cases v with
      | list l =>
        have hlen := hp.2.2.2.1 l rfl
        simp [isSmallEntry, hp.1]
        omega
      | dict ves => simp [isSmallEntry]
    · exact ih hp.2.2.2.2.2 kv' hm

theorem mergeOrphansLevel_id (env : ShaperEnv) (ms : Nat) (tmpl : Option String)
    (es : List (String × PyNode)) (h : ∀ kv ∈ es, isSmallEntry ms kv = false) :
    mergeOrphansLevel env ms tmpl es = .dict es := by
  unfold mergeOrphansLevel
  have hf : es.filter (isSmallEntry ms) = [] :=
    List.filter_eq_nil_iff.2 (fun kv hkv => by simp [h kv hkv])
  simp [hf]

theorem mergeOrphans_id (env : ShaperEnv) (ms : Nat) (tmpl : Option String) :
    ∀ x, SNF ms x = true → mergeOrphans env ms tmpl x = x := by
  refine SNF.induct ms
    (fun x => SNF ms x = true → mergeOrphans env ms tmpl x = x)
    (fun es => SNFEntries ms es = true → mergeOrphansEntries env ms tmpl es = es)
    ?_ ?_ ?_ ?_
  · intro l h
    have hp := goodListB_parts (by simpa [SNF] using h)
    simp only [mergeOrphans]
    rw [pySort_eq_self hp.1]
  · intro es ih h
    have hd := SNF_dict h
    simp only [mergeOrphans]
    rw [ih hd.2]
    exact mergeOrphansLevel_id env ms tmpl es (SNFEntries_not_small hd.2)
  · intro _; rfl
  · intro k v rest ih1 ih2 h
    have hp := SNFEntries_cons_parts h
    simp only [mergeOrphansEntries]
    rw [ih1 hp.2.2.1, ih2 hp.2.2.2.2.2]

theorem pruneTautologies_id (ms : Nat) :
    ∀ x, SNF ms x = true → pruneTautologies x = x := by
  refine SNF.induct ms (fun x => SNF ms x = true → pruneTautologies x = x)
    (fun es => SNFEntries ms es = true → pruneTautologiesEntries es = es) ?_ ?_ ?_ ?_
  · intro l _; rfl
  · intro es ih h
    simp only [pruneTautologies]
    rw [ih (SNF_dict h).2]
  · intro _; rfl
  · intro k v rest ih1 ih2 h
    have hp := SNFEntries_cons_parts h
    simp only [pruneTautologiesEntries]
    rw [ih1 hp.2.2.1, ih2 hp.2.2.2.2.2]
    cases v with
    | list l => rfl
    | dict ves =>
      have hfind : ves.find?
          (fun ckv => pyStrip (pyLower ckv.1) == pyStrip (pyLower k)) = none :=
        List.find?_eq_none.2 (fun ckv hckv => by
          simpa [beq_iff_eq] using hp.2.2.2.2.1 ves rfl ckv hckv)
      simp [hfind]

theorem flattenSinglesEntries_of_SNF (ms : Nat) :
    ∀ x, SNF ms x = true → ∀ b, flattenSingles b x = x := by
  refine SNF.induct ms (fun x => SNF ms x = true → ∀ b, flattenSingles b x = x)
    (fun es => SNFEntries ms es = true → flattenSinglesEntries es = es) ?_ ?_ ?_ ?_
  · intro l _ _; rfl
  · intro es ih h b
    have hd := SNF_dict h
    simp only [flattenSingles]
    rw [ih hd.2]
    cases es with
    | nil => rfl
    | cons kv0 rest =>
      cases rest with
      | cons _ _ => rfl
      | nil =>
        obtain ⟨key, val⟩ := kv0
        have hp := SNFEntries_cons_parts hd.2
        have hgen := hp.1
        cases b with
        | true => rfl
        | false =>
          cases val with
          | dict _ => rfl
          | list l =>
            have hk : ¬(key = "misc" ∨ key = "Other" ∨ key = "misc (Category 1)") := by
              intro hcase
              rcases hcase with rfl | rfl | rfl <;> exact absurd hgen (by decide)
            simp [hk]
  · intro _; rfl
  · intro k v rest ih1 ih2 h
    have hp := SNFEntries_cons_parts h
    simp only [flattenSinglesEntries]
    rw [ih1 hp.2.2.1 false, ih2 hp.2.2.2.2.2]

theorem assocLookup_append_none {acc : List (String × PyNode)} {x k : String}
    {v : PyNode} (h1 : assocLookup acc x = none) (h2 : k ≠ x) :
    assocLookup (acc ++ [(k, v)]) x = none := by
  induction acc with
  | nil => simp [assocLookup, h2]
  | cons kv rest ih =>
    obtain ⟨k', v'⟩ := kv
    by_cases hk : k' = x
    · subst hk
      simp [assocLookup] at h1
    · simp only [List.cons_append, assocLookup, if_neg hk] at h1 ⊢
      exact ih h1

theorem normalizeCasing_id (ms : Nat) :
    ∀ x, SNF ms x = true → normalizeCasing x = x := by
  refine SNF.induct ms (fun x => SNF ms x = true → normalizeCasing x = x)
    (fun es => SNFEntries ms es = true → nodupB (es.map Prod.fst) = true →
      ∀ acc, (∀ kv ∈ es, assocLookup acc kv.1 = none) →
        normalizeCasingEntries acc es = acc ++ es) ?_ ?_ ?_ ?_
  · intro l h
    have hp := goodListB_parts (by simpa [SNF] using h)
    simp only [normalizeCasing]
    rw [map_pyLower_eq_self (by simpa [List.all_eq_true, beq_iff_eq] using hp.2.2),
      pySortedSet_eq_self hp.1 hp.2.1]
  · intro es ih h
    have hd := SNF_dict h
    simp only [normalizeCasing]
    rw [ih hd.2 hd.1 [] (fun kv _ => rfl)]
    simp
  · intro _ _ acc _
    simp [normalizeCasingEntries]
  · intro k v rest ih1 ih2 h hnod acc hacc
    have hp := SNFEntries_cons_parts h
    simp only [List.map_cons] at hnod
    have hnd := nodupB_cons hnod
    have hk_lookup : assocLookup acc k = none := by
      have := hacc (k, v) (by simp)
      simpa using this
    simp only [normalizeCasingEntries]
    rw [hp.2.1, ih1 hp.2.2.1, hk_lookup]
    rw [ih2 hp.2.2.2.2.2 hnd.2 (acc ++ [(k, v)]) ?_]
    · simp
    · intro kv hkv
      refine assocLookup_append_none (hacc kv (by simp [hkv])) ?_
      intro hkk
      exact hnd.1 (hkk ▸ (List.mem_map.2 ⟨kv, hkv, rfl⟩))

theorem shape_id (env : ShaperEnv) (ms : Nat) (fl pr : Bool) (tmpl : Option String)
    (x : PyNode) (h : SNF ms x = true) : shape env x ms fl pr tmpl = x := by
  simp only [shape]
  rw [mergeOrphans_id env ms tmpl x h, pruneTautologies_id ms x h]
  cases fl with
  | false =>
    simpa using normalizeCasing_id ms x h
  | true =>
    have hflat : ∀ b, flattenSingles b x = x := flattenSinglesEntries_of_SNF ms x h
    cases x with
    | list l => simpa using normalizeCasing_id ms (.list l) h
    | dict es =>
      cases es with
      | nil => simpa using normalizeCasing_id ms (.dict []) h
      | cons kv0 rest =>
        cases rest with
        | cons _ _ =>
          simp only [if_pos rfl]
          rw [hflat true]
          exact normalizeCasing_id ms _ h
        | nil =>
          obtain ⟨k, v⟩ := kv0
          have hv : SNF ms v = true := (SNFEntries_cons_parts (SNF_dict h).2).2.2.1
          simp only [if_pos rfl]
          cases pr with
          | true =>
            simp only [if_pos rfl]
            rw [flattenSinglesEntries_of_SNF ms v hv false]
            exact normalizeCasing_id ms _ h
          | false =>
            simp only [Bool.false_eq_true, if_false]
            rw [hflat true]
            exact normalizeCasing_id ms _ h

/-! ### C5 — shaper idempotence -/

/-- C5 (counterexample): the Shaper is not idempotent. For the input
`{"P": {"a": ["x"], "b": ["y"]}, "Big": ["b1".."b5"]}` with
`min_leaf_size = 5`, the first application pools P's small lists into a
generic bin and then flattens it to `{"P": ["x", "y"], "Big": [...]}`;
the second application pools the now-small list under "P" into a fresh
"Other" bin, so the results differ as Python `==` values. -/
theorem C5_counterexample :
    pyEqNode
      (shape cShaperEnv
        (shape cShaperEnv
          (.dict [("P", .dict [("a", .list ["x"]), ("b", .list ["y"])]),
                  ("Big", .list ["b1", "b2", "b3", "b4", "b5"])]) 5 true true none)
        5 true true none)
      (shape cShaperEnv
        (.dict [("P", .dict [("a", .list ["x"]), ("b", .list ["y"])]),
                ("Big", .list ["b1", "b2", "b3", "b4", "b5"])]) 5 true true none) =
      false := by decide

/-- C5 (amended): the Shaper is the identity — hence idempotent — on
structures in shaped normal form (leaf lists sorted, duplicate-free,
lower-cased and at least `min_leaf_size` long; keys unique, title-cased,
non-generic; no tautological child keys); in general a second
application can differ, because the passes re-pool the bins and the
flattened lists the first application produced. -/
theorem C5_theorem (env : ShaperEnv) (ms : Nat) (fl pr : Bool) (tmpl : Option String)
    (x : PyNode) (h : SNF ms x = true) :
    shape env x ms fl pr tmpl = x ∧
    shape env (shape env x ms fl pr tmpl) ms fl pr tmpl =
      shape env x ms fl pr tmpl := by
  have h1 := shape_id env ms fl pr tmpl x h
  refine ⟨h1, ?_⟩
  rw [h1]
  exact h1

/-- Witness for C5 on a concrete normal-form structure. -/
theorem C5_witness :
    SNF 5 (.dict [("Food", .list ["apple", "banana", "cherry", "date", "egg"])]) = true ∧
    shape cShaperEnv
        (.dict [("Food", .list ["apple", "banana", "cherry", "date", "egg"])])
        5 true true none =
      .dict [("Food", .list ["apple", "banana", "cherry", "date", "egg"])] :=
  ⟨by decide,
   (C5_theorem cShaperEnv 5 true true none
     (.dict [("Food", .list ["apple", "banana", "cherry", "date", "egg"])])
     (by decide)).1⟩

/-! ### C6 — leaf-list output invariant -/

theorem char_toNat_ofNat {n : Nat} (h : n < 55296) : (Char.ofNat n).toNat = n := by
  rw [Char.ofNat, dif_pos (Or.inl h)]
  simp [Char.ofNatAux, Char.toNat, UInt32.toNat]

theorem upperRange {c : Char} (h : 'A' ≤ c ∧ c ≤ 'Z') :
    65 ≤ c.toNat ∧ c.toNat ≤ 90 := by
  rw [Char.le_def, Char.le_def] at h
  exact ⟨h.1, h.2⟩

theorem pyLowerChar_not_upper (c : Char) :
    ¬('A' ≤ pyLowerChar c ∧ pyLowerChar c ≤ 'Z') := by
  unfold pyLowerChar
  split_ifs with h
  · have hr := upperRange h
    intro hc
    have hu := upperRange hc
    rw [char_toNat_ofNat (by omega)] at hu
    omega
  · exact h

theorem pyLowerChar_idem (c : Char) :
    pyLowerChar (pyLowerChar c) = pyLowerChar c := by
  have h := pyLowerChar_not_upper c
  rw [show pyLowerChar (pyLowerChar c) =
        (if 'A' ≤ pyLowerChar c ∧ pyLowerChar c ≤ 'Z' then
          Char.ofNat ((pyLowerChar c).toNat + 32) else pyLowerChar c) from rfl,
    if_neg h]

theorem pyLower_idem (s : String) : pyLower (pyLower s) = pyLower s := by
  simp only [pyLower, List.map_map]
  congr 1
  apply List.map_congr_left
  intro c _
  exact pyLowerChar_idem c

theorem mem_pyDedup_go : ∀ (l seen : List String) (x : String),
    x ∈ pyDedup.go seen l → x ∈ l := by
  intro l
  induction l with
  | nil => intro seen x h; cases h
  | cons a rest ih =>
    intro seen x h
    simp only [pyDedup.go] at h
    split_ifs at h with ha
    · exact List.mem_cons_of_mem a (ih seen x h)
    · rcases List.mem_cons.1 h with rfl | hm
      · exact List.mem_cons_self _ _
      · exact List.mem_cons_of_mem a (ih (a :: seen) x hm)

theorem pyDedup_go_nodup : ∀ (l seen : List String),
    (pyDedup.go seen l).Nodup ∧ ∀ x ∈ pyDedup.go seen l, x ∉ seen := by
  intro l
  induction l with
  | nil => intro seen; constructor <;> simp [pyDedup.go]
  | cons a rest ih =>
    intro seen
    simp only [pyDedup.go]
    split_ifs with ha
    · exact ih seen
    · have h2 := ih (a :: seen)
      refine ⟨List.nodup_cons.2 ⟨?_, h2.1⟩, ?_⟩
      · intro hmem
        exact (h2.2 a hmem) (List.mem_cons_self _ _)
      · intro x hx
        rcases List.mem_cons.1 hx with rfl | hm
        · exact ha
        · intro hseen
          exact (h2.2 x hm) (List.mem_cons_of_mem a hseen)

theorem pySortedSet_good (m : List String) :
    List.Sorted (fun a b => strLe a b = true) (pySortedSet m) ∧
    (pySortedSet m).Nodup ∧ ∀ x ∈ pySortedSet m, x ∈ m := by
  refine ⟨pySort_sorted _, ?_, ?_⟩
  · exact (pySort_perm (pyDedup m)).nodup_iff.2 (pyDedup_go_nodup m []).1
  · intro x hx
    exact mem_pyDedup_go m [] x ((pySort_perm (pyDedup m)).mem_iff.1 hx)

theorem ListIn_list {l m : List String} (h : ListIn l (.list m)) : l = m := by
  cases h
  rfl

theorem ListIn_dict {l : List String} {es : List (String × PyNode)}
    (h : ListIn l (.dict es)) : ∃ k v, (k, v) ∈ es ∧ ListIn l v := by
  cases h with
  | there k v es' hin hmem => exact ⟨k, v, hmem, hin⟩

theorem assocLookup_some_mem : ∀ {es : List (String × PyNode)} {k : String}
    {w : PyNode}, assocLookup es k = some w → (k, w) ∈ es := by
  intro es
  induction es with
  | nil => intro k w h; cases h
  | cons kv rest ih =>
    intro k w h
    obtain ⟨k', v'⟩ := kv
    simp only [assocLookup] at h
    split_ifs at h with hk
    · cases h
      subst hk
      exact List.mem_cons_self _ _
    · exact List.mem_cons_of_mem _ (ih h)

theorem mem_assocSet : ∀ {es : List (String × PyNode)} {k : String} {v : PyNode}
    {kv : String × PyNode}, kv ∈ assocSet es k v →
      kv.2 = v ∨ ∃ k₁, (k₁, kv.2) ∈ es := by
  intro es
  induction es with
  | nil =>
    intro k v kv h
    rcases List.mem_singleton.1 h with rfl
    exact Or.inl rfl
  | cons kv0 rest ih =>
    intro k v kv h
    obtain ⟨k', v'⟩ := kv0
    simp only [assocSet] at h
    split_ifs at h with hk
    · rcases List.mem_cons.1 h with rfl | hm
      · exact Or.inl rfl
      · exact Or.inr ⟨kv.1, List.mem_cons_of_mem _ (by simpa using hm)⟩
    · rcases List.mem_cons.1 h with rfl | hm
      · exact Or.inr ⟨k', List.mem_cons_self _ _⟩
      · rcases ih hm with h1 | ⟨k₁, h1⟩
        · exact Or.inl h1
        · exact Or.inr ⟨k₁, List.mem_cons_of_mem _ h1⟩

theorem mem_dictUpdate : ∀ {b a : List (String × PyNode)} {kv : String × PyNode},
    kv ∈ dictUpdate a b →
      (∃ k₁, (k₁, kv.2) ∈ a) ∨ ∃ k₁, (k₁, kv.2) ∈ b := by
  intro b
  induction b with
  | nil =>
    intro a kv h
    exact Or.inl ⟨kv.1, by simpa [dictUpdate] using h⟩
  | cons kv0 rest ih =>
    intro a kv h
    obtain ⟨k0, v0⟩ := kv0
    simp only [dictUpdate, List.foldl_cons] at h
    rcases ih (by simpa [dictUpdate] using h) with ⟨k₁, h1⟩ | ⟨k₁, h1⟩
    · rcases mem_assocSet h1 with h2 | ⟨k₂, h2⟩
      · refine Or.inr ⟨k0, ?_⟩
        have h2' : kv.2 = v0 := h2
        rw [h2']
        exact List.mem_cons_self _ _
      · exact Or.inl ⟨k₂, h2⟩
    · exact Or.inr ⟨k₁, List.mem_cons_of_mem _ h1⟩

/-- Every leaf list in the output of `_normalize_casing` is sorted,
duplicate-free and lower-cased. -/
theorem normalize_good :
    ∀ (x : PyNode) (l : List String), ListIn l (normalizeCasing x) →
      GoodLeafList l := by
  refine SNF.induct 0
    (fun x => ∀ l, ListIn l (normalizeCasing x) → GoodLeafList l)
    (fun es => ∀ acc,
      (∀ k v, (k, v) ∈ acc → ∀ l, ListIn l v → GoodLeafList l) →
      ∀ k v, (k, v) ∈ normalizeCasingEntries acc es → ∀ l, ListIn l v → GoodLeafList l)
    ?_ ?_ ?_ ?_
  · intro m l hl
    have hg := pySortedSet_good (m.map pyLower)
    have hl0 : ListIn l (.list (pySortedSet (m.map pyLower))) := hl
    have hl' := ListIn_list hl0
    subst hl'
    refine ⟨hg.1, hg.2.1, ?_⟩
    intro s hs
    rcases List.mem_map.1 (hg.2.2 s hs) with ⟨y, _, rfl⟩
    exact pyLower_idem y
  · intro es ih l hl
    have hl0 : ListIn l (.dict (normalizeCasingEntries [] es)) := hl
    rcases ListIn_dict hl0 with ⟨k, v, hmem, hin⟩
    exact ih [] (fun k' v' hv' => by cases hv') k v hmem l hin
  · intro acc hacc k v hmem l hin
    exact hacc k v (by simpa [normalizeCasingEntries] using hmem) l hin
  · intro k' v rest ih1 ih2 acc haccGood k₀ v₀ hmem l hin
    simp only [normalizeCasingEntries] at hmem
    have haccGood' : ∀ k₁ v₁,
        (k₁, v₁) ∈ (match assocLookup acc (pyTitle k') with
          | some existing =>
            match existing, normalizeCasing v with
            | .list a, .list b => assocSet acc (pyTitle k') (.list (pySortedSet (a ++ b)))
            | .dict a, .dict b => assocSet acc (pyTitle k') (.dict (dictUpdate a b))
            | _, _ => assocSet acc (pyTitle k') (normalizeCasing v)
          | none => acc ++ [(pyTitle k', normalizeCasing v)]) →
        ∀ l₁, ListIn l₁ v₁ → GoodLeafList l₁ := by
      intro k₁ v₁ hv₁ l₁ hin₁
      cases hl : assocLookup acc (pyTitle k') with
      | none =>
        rw [hl] at hv₁
        rcases List.mem_append.1 hv₁ with hm | hm
        · exact haccGood k₁ v₁ hm l₁ hin₁
        · rcases List.mem_singleton.1 hm with hm'
          have hv₁' : v₁ = normalizeCasing v := congrArg Prod.snd hm'
          exact ih1 l₁ (hv₁' ▸ hin₁)
      | some existing =>
        rw [hl] at hv₁
        have hexmem := assocLookup_some_mem hl
        cases hex : existing with
        | list a =>
          cases hnv : normalizeCasing v with
          | list b =>
            rw [hex, hnv] at hv₁
            rcases mem_assocSet hv₁ with h2 | ⟨k₂, h2⟩
            · have h2' : v₁ = PyNode.list (pySortedSet (a ++ b)) := h2
              rw [h2'] at hin₁
              have hl₁ := ListIn_list hin₁
              subst hl₁
              have hg := pySortedSet_good (a ++ b)
              refine ⟨hg.1, hg.2.1, ?_⟩
              intro s hs
              rcases List.mem_append.1 (hg.2.2 s hs) with hsa | hsb
              · have := haccGood (pyTitle k') (.list a) (hex ▸ hexmem) a (.here a)
                exact this.2.2 s hsa
              · have := ih1 b (hnv ▸ ListIn.here b)
                exact this.2.2 s hsb
            · exact haccGood k₂ v₁ h2 l₁ hin₁
          | dict b =>
            rw [hex, hnv] at hv₁
            rcases mem_assocSet hv₁ with h2 | ⟨k₂, h2⟩
            · have h2' : v₁ = normalizeCasing v := by rw [hnv]; exact h2
              exact ih1 l₁ (h2' ▸ hin₁)
            · exact haccGood k₂ v₁ h2 l₁ hin₁
        | dict a =>
          cases hnv : normalizeCasing v with
          | list b =>
            rw [hex, hnv] at hv₁
            rcases mem_assocSet hv₁ with h2 | ⟨k₂, h2⟩
            · have h2' : v₁ = normalizeCasing v := by rw [hnv]; exact h2
              exact ih1 l₁ (h2' ▸ hin₁)
            · exact haccGood k₂ v₁ h2 l₁ hin₁
          | dict b =>
            rw [hex, hnv] at hv₁
            rcases mem_assocSet hv₁ with h2 | ⟨k₂, h2⟩
            · have h2' : v₁ = PyNode.dict (dictUpdate a b) := h2
              rw [h2'] at hin₁
              rcases ListIn_dict hin₁ with ⟨k₃, v₃, hmem₃, hin₃⟩
              rcases mem_dictUpdate hmem₃ with ⟨k₄, h4⟩ | ⟨k₄, h4⟩
              · exact haccGood (pyTitle k') (.dict a) (hex ▸ hexmem) l₁
                  (ListIn.there l₁ k₄ v₃ a hin₃ h4)
              · exact ih1 l₁ (hnv ▸ ListIn.there l₁ k₄ v₃ b hin₃ h4)
            · exact haccGood k₂ v₁ h2 l₁ hin₁
    exact ih2 _ haccGood' k₀ v₀ hmem l hin

/-- C6 (counterexample): the Shaper's output can contain an empty leaf
list: shaping `{"A": []}` with `min_leaf_size = 5` pools the empty list
into an "Other" bin that stays empty, so non-emptiness fails. -/
theorem C6_counterexample :
    shape cShaperEnv (.dict [("A", .list [])]) 5 true true none =
      .dict [("Other", .list [])] ∧
    ListIn [] (shape cShaperEnv (.dict [("A", .list [])]) 5 true true none) := by
  have h : shape cShaperEnv (.dict [("A", .list [])]) 5 true true none =
      .dict [("Other", .list [])] := rfl
  refine ⟨h, ?_⟩
  rw [h]
  exact ListIn.there [] ("Other") (.list []) _ (.here []) (by simp)

/-- C6 (amended): every leaf list occurring anywhere in a structure
returned by the Shaper is sorted, contains no duplicates and contains
only lower-cased strings (the final casing-normalization pass maps every
list to `sorted(set(lowered))`); non-emptiness does not hold in
general. -/
theorem C6_theorem (env : ShaperEnv) (x : PyNode) (ms : Nat) (fl pr : Bool)
    (tmpl : Option String) (l : List String)
    (h : ListIn l (shape env x ms fl pr tmpl)) : GoodLeafList l := by
  apply normalize_good
  unfold shape at h
  exact h

/-- Witness for C6: a concrete shaped structure whose single leaf list
satisfies the invariant. -/
theorem C6_witness : GoodLeafList ["a", "b"] :=
  C6_theorem cShaperEnv (.list ["B", "a", "a"]) 5 true true none ["a", "b"]
    (by
      have h : shape cShaperEnv (.list ["B", "a", "a"]) 5 true true none =
          .list ["a", "b"] := rfl
      rw [h]
      exact ListIn.here _)

/-! ### C8 — tautology prune -/

theorem assocSet_append_of_not_mem :
    ∀ (es : List (String × PyNode)) (k : String) (v : PyNode),
      k ∉ es.map Prod.fst → assocSet es k v = es ++ [(k, v)] := by
  intro es
  induction es with
  | nil => intro k v _; rfl
  | cons kv rest ih =>
    intro k v h
    obtain ⟨k', v'⟩ := kv
    simp only [List.map_cons, List.mem_cons] at h
    push_neg at h
    simp only [assocSet, List.cons_append]
    rw [if_neg (fun he => h.1 he.symm), ih k v h.2]

/-- C8 (counterexample): renaming the duplicate child to
`"General {ParentName}"` does not keep all content when a sibling named
`"General {ParentName}"` already exists — the pop-then-assign overwrites
that sibling, losing its items (here `["q"]`). -/
theorem C8_counterexample :
    pruneTautologies
        (.dict [("A", .dict [("A", .list ["p"]), ("General A", .list ["q"])])]) =
      .dict [("A", .dict [("General A", .list ["p"])])] ∧
    ¬ ListIn ["q"] (.dict [("A", .dict [("General A", .list ["p"])])]) := by
  refine ⟨rfl, ?_⟩
  intro h
  rcases ListIn_dict h with ⟨k, v, hmem, hin⟩
  rcases List.mem_singleton.1 hmem with hm
  have hv : v = .dict [("General A", .list ["p"])] := congrArg Prod.snd hm
  subst hv
  rcases ListIn_dict hin with ⟨k₂, v₂, hmem₂, hin₂⟩
  rcases List.mem_singleton.1 hmem₂ with hm₂
  have hv₂ : v₂ = .list ["p"] := congrArg Prod.snd hm₂
  subst hv₂
  have := ListIn_list hin₂
  simp at this

/-- C8 (amended): in the tautology pass, for a Category `k` whose
(recursed) dict value contains a child key equal to `k` after
case-insensitive strip: a sole matching child is promoted to replace the
Category's value; with siblings, the matching child is popped and
re-assigned as `"General {k}"`, which keeps all content exactly when no
remaining sibling already uses that name (otherwise that sibling's value
is overwritten). -/
theorem C8_theorem (k : String) (ves : List (String × PyNode)) (ck : String)
    (cv : PyNode) (hfix : pruneTautologiesEntries ves = ves)
    (hfind : ves.find? (fun ckv => pyStrip (pyLower ckv.1) == pyStrip (pyLower k)) =
      some (ck, cv)) :
    (ves.length = 1 →
      pruneTautologies (.dict [(k, .dict ves)]) = .dict [(k, cv)]) ∧
    (ves.length ≠ 1 →
      pruneTautologies (.dict [(k, .dict ves)]) =
        .dict [(k, .dict (assocSet (assocPop ves ck) ("General " ++ k) cv))]) ∧
    (("General " ++ k) ∉ (assocPop ves ck).map Prod.fst →
      assocSet (assocPop ves ck) ("General " ++ k) cv =
        assocPop ves ck ++ [("General " ++ k, cv)]) := by
  refine ⟨?_, ?_, ?_⟩
  · intro hlen
    simp only [pruneTautologies, pruneTautologiesEntries, hfix, hfind, hlen, if_pos]
  · intro hlen
    simp only [pruneTautologies, pruneTautologiesEntries, hfix, hfind]
    rw [if_neg hlen]
  · intro hmem
    exact assocSet_append_of_not_mem _ _ _ hmem

/-- Witness for C8: the sibling case on the spec's own example shape
(`Wine` containing a matching `wine` child next to `Misc`). -/
theorem C8_witness :
    pruneTautologies
        (.dict [("Wine", .dict [("wine", .list ["merlot"]), ("Misc", .list ["zin"])])]) =
      .dict [("Wine",
        .dict [("Misc", .list ["zin"]), ("General Wine", .list ["merlot"])])] :=
  (((C8_theorem ("Wine") [("wine", .list ["merlot"]), ("Misc", .list ["zin"])]
      ("wine") (.list ["merlot"]) rfl rfl).2.1) (by decide)).trans
    (by
      rw [(C8_theorem ("Wine") [("wine", .list ["merlot"]), ("Misc", .list ["zin"])]
        ("wine") (.list ["merlot"]) rfl rfl).2.2 (by decide)]
      rfl)

end WildcardsGen
